import Mathlib

/-! # The secure transport codec of `gufu`

A shallow embedding of `ufutil_decoder.go` (the decode path of the mobile
gateway codec) together with the library routines it calls, followed by the
properties of the specification that concern it.

Go strings and byte slices are modelled as lists of bytes.  A Go function
that returns `(value, error)` is modelled as a pair whose second component is
`none` for a `nil` error.  A run-time panic is modelled by `Run.panic`.
-/

namespace Gufu

/-! ## Data model -/

/-- One Go `byte`. -/
abbrev Byte := Fin 256

/-- Go `string` and `[]byte` values: a sequence of bytes. -/
abbrev Bytes := List Byte

/-- The bytes of an ASCII string literal. -/
def ascii (s : String) : Bytes := s.toList.map (fun c => Fin.ofNat c.toNat)

/-- Error values that the decode path can return. -/
inductive GoError where
  /-- An `encoding/hex` `InvalidByteError`. -/
  | hexInvalidByte (b : Byte)
  /-- The `encoding/hex` `ErrLength` (odd length hex string). -/
  | hexLength
  /-- An `encoding/base64` `CorruptInputError` with its offset. -/
  | base64Corrupt (offset : Nat)
  /-- A `crypto/aes` `KeySizeError`. -/
  | aesKeySize (n : Nat)
  /-- The value of `errors.New("decryptor returned an empty string")`. -/
  | emptyDecrypt
  deriving DecidableEq, Repr

/-- Run-time panics that the decode path can raise. -/
inductive GoPanic where
  /-- An index expression out of range. -/
  | indexOutOfRange
  /-- A slice expression with bounds out of range. -/
  | sliceBounds
  /-- The panic of `cipher.NewCBCDecrypter`: IV length must equal block size. -/
  | cbcIVLength
  /-- The panic of `CryptBlocks`: input not full blocks. -/
  | cbcNotFullBlocks
  /-- The panic of `make` with a negative size. -/
  | makeSlice
  deriving DecidableEq, Repr

/-- The outcome of running a Go function: it returns a value or it panics. -/
inductive Run (α : Type) where
  | ret (a : α)
  | panic (p : GoPanic)
  deriving DecidableEq, Repr

/-! ## `encoding/hex` -/

/-- The value of one hexadecimal digit, `none` for any other byte
(`reverseHexTable` of `encoding/hex`). -/
def fromHexChar (c : Byte) : Option Nat :=
  if 48 ≤ c.val ∧ c.val ≤ 57 then some (c.val - 48)
  else if 97 ≤ c.val ∧ c.val ≤ 102 then some (c.val - 87)
  else if 65 ≤ c.val ∧ c.val ≤ 70 then some (c.val - 55)
  else none

/-- The function `hex.DecodeString`: the decoded bytes up to the first error,
and the error. -/
def hexDecodeString : Bytes → Bytes × Option GoError
  | [] => ([], none)
  | [p] =>
    match fromHexChar p with
    | none => ([], some (.hexInvalidByte p))
    | some _ => ([], some .hexLength)
  | p :: q :: rest =>
    match fromHexChar p with
    | none => ([], some (.hexInvalidByte p))
    | some a =>
      match fromHexChar q with
      | none => ([], some (.hexInvalidByte q))
      | some b =>
        let r := hexDecodeString rest
        (Fin.ofNat (a * 16 + b) :: r.1, r.2)

/-! ## `encoding/base64`, `StdEncoding` -/

/-- The six-bit value of a character of the standard alphabet, `none` for any
other byte (`decodeMap`, where the source has `0xff`). -/
def decodeMap (c : Byte) : Option Nat :=
  if 65 ≤ c.val ∧ c.val ≤ 90 then some (c.val - 65)
  else if 97 ≤ c.val ∧ c.val ≤ 122 then some (c.val - 71)
  else if 48 ≤ c.val ∧ c.val ≤ 57 then some (c.val + 4)
  else if c.val = 43 then some 62
  else if c.val = 47 then some 63
  else none

/-- The character of the standard alphabet for a six-bit value. -/
def encodeMap (v : Nat) : Byte :=
  if v < 26 then Fin.ofNat (v + 65)
  else if v < 52 then Fin.ofNat (v + 71)
  else if v < 62 then Fin.ofNat (v - 4)
  else if v = 62 then 43
  else 47

/-- A line feed or a carriage return, which the decoder skips. -/
def isNewline (c : Byte) : Bool := c.val = 10 || c.val = 13

/-- The padding character `=`. -/
def padChar : Byte := 61

/-- Drop the leading newline characters. -/
def skipNewlines : Bytes → Bytes
  | [] => []
  | c :: rest => if isNewline c then skipNewlines rest else c :: rest

/-- The bytes a quantum of `q.length` six-bit values decodes to: the 24-bit
value `d0<<18 | d1<<12 | d2<<6 | d3` cut into three bytes, of which the first
`q.length - 1` are written. -/
def quantumBytes (q : List Nat) : Bytes :=
  let val := q.getD 0 0 * 262144 + q.getD 1 0 * 4096 + q.getD 2 0 * 64 + q.getD 3 0
  ([Fin.ofNat (val / 65536), Fin.ofNat (val / 256), Fin.ofNat val] : Bytes).take (q.length - 1)

/-- After the padding of a quantum: skip newlines, and anything left over is
trailing garbage.  The bytes of the quantum are written either way. -/
def b64Finish (rest : Bytes) (si : Nat) (q : List Nat) : Bytes × Option GoError :=
  let r := skipNewlines rest
  match r with
  | [] => (quantumBytes q, none)
  | _ :: _ => (quantumBytes q, some (.base64Corrupt (si + (rest.length - r.length))))

/-- The decode loop of `Encoding.Decode` for `StdEncoding` (`decodeQuantum`
repeated): `si` is the offset of the next byte of the source and `q` the
six-bit values collected for the current quantum. -/
def b64Decode : Bytes → Nat → List Nat → Bytes × Option GoError
  | [], si, q =>
    match q with
    | [] => ([], none)
    | _ :: _ => ([], some (.base64Corrupt (si - q.length)))
  | c :: rest, si, q =>
    match decodeMap c with
    | some v =>
      if q.length = 3 then
        let r := b64Decode rest (si + 1) []
        (quantumBytes (q ++ [v]) ++ r.1, r.2)
      else b64Decode rest (si + 1) (q ++ [v])
    | none =>
      if isNewline c then b64Decode rest (si + 1) q
      else if c ≠ padChar then ([], some (.base64Corrupt si))
      else if q.length < 2 then ([], some (.base64Corrupt si))
      else if q.length = 2 then
        let r := skipNewlines rest
        let si2 := si + 1 + (rest.length - r.length)
        match r with
        | [] => ([], some (.base64Corrupt si2))
        | c2 :: r2 =>
          if c2 ≠ padChar then ([], some (.base64Corrupt (si2 - 1)))
          else b64Finish r2 (si2 + 1) q
      else b64Finish rest (si + 1) q

/-- The function `base64.StdEncoding.DecodeString`. -/
def base64DecodeString (s : Bytes) : Bytes × Option GoError := b64Decode s 0 []

/-- The function `base64.StdEncoding.EncodeToString`. -/
def base64EncodeToString : Bytes → Bytes
  | [] => []
  | [a] => [encodeMap (a.val / 4), encodeMap (a.val % 4 * 16), padChar, padChar]
  | [a, b] =>
    [encodeMap (a.val / 4), encodeMap (a.val % 4 * 16 + b.val / 16),
      encodeMap (b.val % 16 * 4), padChar]
  | a :: b :: c :: rest =>
    encodeMap (a.val / 4) :: encodeMap (a.val % 4 * 16 + b.val / 16) ::
      encodeMap (b.val % 16 * 4 + c.val / 64) :: encodeMap (c.val % 64) ::
      base64EncodeToString rest

/-! ## `crypto/sha1`, `crypto/hmac` and `golang.org/x/crypto/pbkdf2` -/

/-- Rotate a 32-bit word left by `n` bits (`bits.RotateLeft32`). -/
def rotl32 (x n : Nat) : Nat := (x * 2 ^ n % 4294967296) + x / 2 ^ (32 - n)

/-- The four bytes of a 32-bit word, most significant first. -/
def be32 (w : Nat) : Bytes :=
  [Fin.ofNat (w / 16777216), Fin.ofNat (w / 65536), Fin.ofNat (w / 256), Fin.ofNat w]

/-- The eight bytes of a 64-bit word, most significant first. -/
def be64 (w : Nat) : Bytes := be32 (w / 4294967296 % 4294967296) ++ be32 (w % 4294967296)

/-- The padded message of SHA-1: a `0x80` byte, zero bytes up to 56 modulo
64, and the length in bits as a 64-bit big-endian number. -/
def sha1Pad (m : Bytes) : Bytes :=
  m ++ [128] ++ List.replicate ((119 - m.length % 64) % 64) 0 ++ be64 (8 * m.length)

/-- The big-endian 32-bit words of a byte string. -/
def toWords : Bytes → List Nat
  | a :: b :: c :: d :: rest =>
    (a.val * 16777216 + b.val * 65536 + c.val * 256 + d.val) :: toWords rest
  | _ => []

/-- The working variables `a, b, c, d, e` of SHA-1, or the chaining value
`h0 .. h4`. -/
structure Sha1State where
  a : Nat
  b : Nat
  c : Nat
  d : Nat
  e : Nat
  deriving DecidableEq, Repr

/-- The round function and constant of round `t`. -/
def sha1F (t b c d : Nat) : Nat :=
  if t < 20 then ((b &&& c) ||| ((4294967295 - b) &&& d)) + 1518500249
  else if t < 40 then (b ^^^ c ^^^ d) + 1859775393
  else if t < 60 then (((b ||| c) &&& d) ||| (b &&& c)) + 2400959708
  else (b ^^^ c ^^^ d) + 3395469782

/-- One round of the compression function with message word `w`. -/
def sha1Round (t : Nat) (s : Sha1State) (w : Nat) : Sha1State :=
  { a := (rotl32 s.a 5 + sha1F t s.b s.c s.d + s.e + w) % 4294967296
    b := s.a
    c := rotl32 s.b 30
    d := s.c
    e := s.d }

/-- The next word of the message schedule from the sixteen before it, held
newest first: `W_t = rotl1 (W_(t-3) xor W_(t-8) xor W_(t-14) xor W_(t-16))`. -/
def scheduleWord : List Nat → Nat
  | _ :: _ :: w3 :: _ :: _ :: _ :: _ :: w8 :: _ :: _ :: _ :: _ :: _ :: w14 :: _ :: w16 :: _ =>
    rotl32 (w3 ^^^ w8 ^^^ w14 ^^^ w16) 1
  | _ => 0

/-- Extend the message schedule, held newest word first, by `n` words. -/
def sha1Schedule : Nat → List Nat → List Nat
  | 0, rev => rev
  | n + 1, rev => sha1Schedule n (scheduleWord rev :: rev)

/-- The rounds `t, t + 1, ...` of the compression function, one for each
word of the message schedule. -/
def sha1Rounds : Nat → List Nat → Sha1State → Sha1State
  | _, [], s => s
  | t, w :: ws, s => sha1Rounds (t + 1) ws (sha1Round t s w)

/-- The compression function of SHA-1 on one block of sixteen words. -/
def sha1Block (h : Sha1State) (block : List Nat) : Sha1State :=
  let r := sha1Rounds 0 (sha1Schedule 64 block.reverse).reverse h
  { a := (h.a + r.a) % 4294967296
    b := (h.b + r.b) % 4294967296
    c := (h.c + r.c) % 4294967296
    d := (h.d + r.d) % 4294967296
    e := (h.e + r.e) % 4294967296 }

/-- Fold the compression function over the first `n` blocks of a message,
given as words. -/
def sha1Blocks : Nat → List Nat → Sha1State → Sha1State
  | 0, _, h => h
  | n + 1, m, h => sha1Blocks n (m.drop 16) (sha1Block h (m.take 16))

/-- The initial chaining value of SHA-1. -/
def sha1Init : Sha1State :=
  { a := 1732584193, b := 4023233417, c := 2562383102, d := 271733878, e := 3285377520 }

/-- The SHA-1 digest of a message, 20 bytes (`sha1.Sum`). -/
def sha1 (m : Bytes) : Bytes :=
  let p := toWords (sha1Pad m)
  let h := sha1Blocks (p.length / 16) p sha1Init
  be32 h.a ++ be32 h.b ++ be32 h.c ++ be32 h.d ++ be32 h.e

/-- Byte-wise exclusive or of two byte strings, up to the shorter one. -/
def xorBytes : Bytes → Bytes → Bytes
  | a :: as, b :: bs => (a ^^^ b) :: xorBytes as bs
  | _, _ => []

/-- HMAC with SHA-1 (`hmac.New(sha1.New, key)` followed by `Write(m)` and
`Sum`): keys longer than the 64-byte block are hashed first. -/
def hmacSha1 (key m : Bytes) : Bytes :=
  let k := if key.length > 64 then sha1 key else key
  let k64 := k ++ List.replicate (64 - k.length) 0
  sha1 (k64.map (fun b => b ^^^ 92) ++ sha1 (k64.map (fun b => b ^^^ 54) ++ m))

/-- The inner loop of `pbkdf2.Key`: `n` further applications of the PRF,
each exclusive-or-ed into `T`.  The pair is `(T, U)`. -/
def pbkdf2Iter (password : Bytes) : Nat → Bytes × Bytes → Bytes × Bytes
  | 0, tu => tu
  | n + 1, tu =>
    let u := hmacSha1 password tu.2
    pbkdf2Iter password n (xorBytes tu.1 u, u)

/-- Block number `block` of the derived key. -/
def pbkdf2Block (password salt : Bytes) (iter : Int) (block : Nat) : Bytes :=
  let u1 := hmacSha1 password (salt ++ be32 block)
  (pbkdf2Iter password (iter - 1).toNat (u1, u1)).1

/-- The function `pbkdf2.Key(password, salt, iter, keyLen, sha1.New)`: the
first `keyLen` bytes of the blocks `T_1 ‖ T_2 ‖ ...`.  A negative `keyLen`
makes the final slice expression panic, or already the `make` before it when
the number of blocks `(keyLen + 19) / 20`, rounded towards zero, is negative. -/
def pbkdf2Key (password salt : Bytes) (iter keyLen : Int) : Run Bytes :=
  if keyLen ≤ -39 then .panic .makeSlice
  else if keyLen < 0 then .panic .sliceBounds
  else
    let numBlocks := (keyLen.toNat + 20 - 1) / 20
    .ret (((List.range numBlocks).map
      (fun i => pbkdf2Block password salt iter (i + 1))).flatten.take keyLen.toNat)

/-! ## `crypto/aes` and `crypto/cipher` -/

/-- The substitution table of AES (FIPS 197, figure 7), one number for each
row: the sixteen bytes of a row, the first one most significant. -/
def sboxRows : List Nat :=
  [
    0x637c777bf26b6fc53001672bfed7ab76,
    0xca82c97dfa5947f0add4a2af9ca472c0,
    0xb7fd9326363ff7cc34a5e5f171d83115,
    0x04c723c31896059a071280e2eb27b275,
    0x09832c1a1b6e5aa0523bd6b329e32f84,
    0x53d100ed20fcb15b6acbbe394a4c58cf,
    0xd0efaafb434d338545f9027f503c9fa8,
    0x51a3408f929d38f5bcb6da2110fff3d2,
    0xcd0c13ec5f974417c4a77e3d645d1973,
    0x60814fdc222a908846eeb814de5e0bdb,
    0xe0323a0a4906245cc2d3ac629195e479,
    0xe7c8376d8dd54ea96c56f4ea657aae08,
    0xba78252e1ca6b4c6e8dd741f4bbd8b8a,
    0x703eb5664803f60e613557b986c11d9e,
    0xe1f8981169d98e949b1e87e9ce5528df,
    0x8ca1890dbfe6426841992d0fb054bb16]

/-- The inverse substitution table of AES (FIPS 197, figure 14), row by row. -/
def invSboxRows : List Nat :=
  [
    0x52096ad53036a538bf40a39e81f3d7fb,
    0x7ce339829b2fff87348e4344c4dee9cb,
    0x547b9432a6c2233dee4c950b42fac34e,
    0x082ea16628d924b2765ba2496d8bd125,
    0x72f8f66486689816d4a45ccc5d65b692,
    0x6c704850fdedb9da5e154657a78d9d84,
    0x90d8ab008cbcd30af7e45805b8b34506,
    0xd02c1e8fca3f0f02c1afbd0301138a6b,
    0x3a9111414f67dcea97f2cfcef0b4e673,
    0x96ac7422e7ad3585e2f937e81c75df6e,
    0x47f11a711d29c5896fb7620eaa18be1b,
    0xfc563e4bc6d279209adbc0fe78cd5af4,
    0x1fdda8338807c731b11210592780ec5f,
    0x60517fa919b54a0d2de57a9f93c99cef,
    0xa0e03b4dae2af5b0c8ebbb3c83539961,
    0x172b047eba77d626e169146355210c7d]

/-- The rows of a table as one number, the first byte most significant. -/
def packRows (rows : List Nat) : Nat :=
  rows.foldl (fun acc r => acc * 340282366920938463463374607431768211456 + r) 0

/-- Entry `i` of a packed table of 256 bytes. -/
def tableEntry (packed : Nat) (i : Nat) : Byte := Fin.ofNat (packed / 2 ^ (8 * (255 - i)))

/-- The substitution of one byte. -/
def sbox (b : Byte) : Byte := tableEntry (packRows sboxRows) b.val

/-- The inverse substitution of one byte. -/
def invSbox (b : Byte) : Byte := tableEntry (packRows invSboxRows) b.val

/-- Multiplication by `x` in GF(2^8) modulo `x^8 + x^4 + x^3 + x + 1`. -/
def xtime (b : Byte) : Byte :=
  Fin.ofNat ((b.val * 2) ^^^ (if b.val < 128 then 0 else 283))

/-- Multiplication by 3 in GF(2^8). -/
def mul3 (b : Byte) : Byte := xtime b ^^^ b

/-- Multiplication by 9 in GF(2^8). -/
def mul9 (b : Byte) : Byte := xtime (xtime (xtime b)) ^^^ b

/-- Multiplication by 11 in GF(2^8). -/
def mul11 (b : Byte) : Byte := xtime (xtime (xtime b)) ^^^ xtime b ^^^ b

/-- Multiplication by 13 in GF(2^8). -/
def mul13 (b : Byte) : Byte := xtime (xtime (xtime b)) ^^^ xtime (xtime b) ^^^ b

/-- Multiplication by 14 in GF(2^8). -/
def mul14 (b : Byte) : Byte := xtime (xtime (xtime b)) ^^^ xtime (xtime b) ^^^ xtime b

/-- A column of the AES state, or a word of the key schedule: four bytes. -/
structure Col where
  b0 : Byte
  b1 : Byte
  b2 : Byte
  b3 : Byte
  deriving DecidableEq, Repr

/-- The AES state, or a round key: four columns. -/
structure State where
  c0 : Col
  c1 : Col
  c2 : Col
  c3 : Col
  deriving DecidableEq, Repr

/-- Apply a function to every byte of a column. -/
def Col.map (f : Byte → Byte) (w : Col) : Col :=
  { b0 := f w.b0, b1 := f w.b1, b2 := f w.b2, b3 := f w.b3 }

/-- Exclusive or of two columns. -/
def Col.xor (v w : Col) : Col :=
  { b0 := v.b0 ^^^ w.b0, b1 := v.b1 ^^^ w.b1, b2 := v.b2 ^^^ w.b2, b3 := v.b3 ^^^ w.b3 }

/-- The column of zero bytes. -/
def Col.zero : Col := { b0 := 0, b1 := 0, b2 := 0, b3 := 0 }

/-- The four bytes at offset `4 * i` of a byte string, as a column. -/
def colAt (b : Bytes) (i : Nat) : Col :=
  { b0 := b.getD (4 * i) 0, b1 := b.getD (4 * i + 1) 0,
    b2 := b.getD (4 * i + 2) 0, b3 := b.getD (4 * i + 3) 0 }

/-- The bytes of a column. -/
def Col.toBytes (w : Col) : Bytes := [w.b0, w.b1, w.b2, w.b3]

/-- A 16-byte block as a state, column by column. -/
def State.ofBytes (b : Bytes) : State :=
  { c0 := colAt b 0, c1 := colAt b 1, c2 := colAt b 2, c3 := colAt b 3 }

/-- The 16 bytes of a state. -/
def State.toBytes (s : State) : Bytes :=
  s.c0.toBytes ++ s.c1.toBytes ++ s.c2.toBytes ++ s.c3.toBytes

/-- The transformation `SubBytes`. -/
def subBytes (s : State) : State :=
  { c0 := s.c0.map sbox, c1 := s.c1.map sbox, c2 := s.c2.map sbox, c3 := s.c3.map sbox }

/-- The transformation `InvSubBytes`. -/
def invSubBytes (s : State) : State :=
  { c0 := s.c0.map invSbox, c1 := s.c1.map invSbox, c2 := s.c2.map invSbox,
    c3 := s.c3.map invSbox }

/-- The transformation `ShiftRows`: row `r` moves `r` columns to the left. -/
def shiftRows (s : State) : State :=
  { c0 := { b0 := s.c0.b0, b1 := s.c1.b1, b2 := s.c2.b2, b3 := s.c3.b3 }
    c1 := { b0 := s.c1.b0, b1 := s.c2.b1, b2 := s.c3.b2, b3 := s.c0.b3 }
    c2 := { b0 := s.c2.b0, b1 := s.c3.b1, b2 := s.c0.b2, b3 := s.c1.b3 }
    c3 := { b0 := s.c3.b0, b1 := s.c0.b1, b2 := s.c1.b2, b3 := s.c2.b3 } }

/-- The transformation `InvShiftRows`: row `r` moves `r` columns to the right. -/
def invShiftRows (s : State) : State :=
  { c0 := { b0 := s.c0.b0, b1 := s.c3.b1, b2 := s.c2.b2, b3 := s.c1.b3 }
    c1 := { b0 := s.c1.b0, b1 := s.c0.b1, b2 := s.c3.b2, b3 := s.c2.b3 }
    c2 := { b0 := s.c2.b0, b1 := s.c1.b1, b2 := s.c0.b2, b3 := s.c3.b3 }
    c3 := { b0 := s.c3.b0, b1 := s.c2.b1, b2 := s.c1.b2, b3 := s.c0.b3 } }

/-- The matrix of `MixColumns` applied to one column. -/
def mixColumn (w : Col) : Col :=
  { b0 := xtime w.b0 ^^^ mul3 w.b1 ^^^ w.b2 ^^^ w.b3
    b1 := w.b0 ^^^ xtime w.b1 ^^^ mul3 w.b2 ^^^ w.b3
    b2 := w.b0 ^^^ w.b1 ^^^ xtime w.b2 ^^^ mul3 w.b3
    b3 := mul3 w.b0 ^^^ w.b1 ^^^ w.b2 ^^^ xtime w.b3 }

/-- The matrix of `InvMixColumns` applied to one column. -/
def invMixColumn (w : Col) : Col :=
  { b0 := mul14 w.b0 ^^^ mul11 w.b1 ^^^ mul13 w.b2 ^^^ mul9 w.b3
    b1 := mul9 w.b0 ^^^ mul14 w.b1 ^^^ mul11 w.b2 ^^^ mul13 w.b3
    b2 := mul13 w.b0 ^^^ mul9 w.b1 ^^^ mul14 w.b2 ^^^ mul11 w.b3
    b3 := mul11 w.b0 ^^^ mul13 w.b1 ^^^ mul9 w.b2 ^^^ mul14 w.b3 }

/-- The transformation `MixColumns`. -/
def mixColumns (s : State) : State :=
  { c0 := mixColumn s.c0, c1 := mixColumn s.c1, c2 := mixColumn s.c2, c3 := mixColumn s.c3 }

/-- The transformation `InvMixColumns`. -/
def invMixColumns (s : State) : State :=
  { c0 := invMixColumn s.c0, c1 := invMixColumn s.c1, c2 := invMixColumn s.c2,
    c3 := invMixColumn s.c3 }

/-- The transformation `AddRoundKey`. -/
def addRoundKey (s k : State) : State :=
  { c0 := s.c0.xor k.c0, c1 := s.c1.xor k.c1, c2 := s.c2.xor k.c2, c3 := s.c3.xor k.c3 }

/-- The round constant `Rcon[i]` of the key expansion, `x^(i-1)` in GF(2^8). -/
def rcon : Nat → Byte
  | 0 => 0
  | 1 => 1
  | n + 2 => xtime (rcon (n + 1))

/-- The function `RotWord` of the key expansion. -/
def rotWord (w : Col) : Col := { b0 := w.b1, b1 := w.b2, b2 := w.b3, b3 := w.b0 }

/-- Word `i` of the key schedule from the words before it, held newest
first (FIPS 197, figure 11), for a key of `nk` words. -/
def expandStep (nk i : Nat) (rev : List Col) : Col :=
  let prev := rev.headD Col.zero
  let temp :=
    if i % nk = 0 then
      (rotWord prev |>.map sbox).xor { b0 := rcon (i / nk), b1 := 0, b2 := 0, b3 := 0 }
    else if nk > 6 ∧ i % nk = 4 then prev.map sbox
    else prev
  (rev.getD (nk - 1) Col.zero).xor temp

/-- Extend the key schedule by `n` words, starting at word `i`. -/
def expandLoop (nk : Nat) : Nat → Nat → List Col → List Col
  | 0, _, rev => rev
  | n + 1, i, rev => expandLoop nk n (i + 1) (expandStep nk i rev :: rev)

/-- An AES cipher: the words of its key schedule and its number of rounds
(the `cipher.Block` that `aes.NewCipher` returns). -/
structure AesCipher where
  words : List Col
  rounds : Nat
  deriving DecidableEq, Repr

/-- The key expansion of AES for a key of 16, 24 or 32 bytes. -/
def expandKey (key : Bytes) : AesCipher :=
  let nk := key.length / 4
  let init := (List.range nk).map (colAt key)
  { words := (expandLoop nk (4 * (nk + 7) - nk) nk init.reverse).reverse
    rounds := nk + 6 }

/-- The function `aes.NewCipher`: a `KeySizeError` unless the key has 16, 24
or 32 bytes. -/
def aesNewCipher (key : Bytes) : Except GoError AesCipher :=
  if key.length = 16 ∨ key.length = 24 ∨ key.length = 32 then .ok (expandKey key)
  else .error (.aesKeySize key.length)

/-- Round key `r` of a cipher. -/
def roundKey (c : AesCipher) (r : Nat) : State :=
  { c0 := c.words.getD (4 * r) Col.zero, c1 := c.words.getD (4 * r + 1) Col.zero,
    c2 := c.words.getD (4 * r + 2) Col.zero, c3 := c.words.getD (4 * r + 3) Col.zero }

/-- The rounds `1 .. n` of the cipher, each with `MixColumns`. -/
def encRounds (c : AesCipher) : Nat → State → State
  | 0, s => s
  | n + 1, s =>
    addRoundKey (mixColumns (shiftRows (subBytes (encRounds c n s)))) (roundKey c (n + 1))

/-- The rounds `n .. 1` of the inverse cipher, each with `InvMixColumns`. -/
def decRounds (c : AesCipher) : Nat → State → State
  | 0, s => s
  | n + 1, s =>
    decRounds c n (invSubBytes (invShiftRows (invMixColumns (addRoundKey s (roundKey c (n + 1))))))

/-- The cipher of FIPS 197 on one state (`Block.Encrypt`). -/
def encryptState (c : AesCipher) (s : State) : State :=
  addRoundKey (shiftRows (subBytes (encRounds c (c.rounds - 1) (addRoundKey s (roundKey c 0)))))
    (roundKey c c.rounds)

/-- The inverse cipher of FIPS 197 on one state (`Block.Decrypt`). -/
def decryptState (c : AesCipher) (s : State) : State :=
  addRoundKey
    (decRounds c (c.rounds - 1) (invSubBytes (invShiftRows (addRoundKey s (roundKey c c.rounds)))))
    (roundKey c 0)

/-- Encrypt one 16-byte block. -/
def encryptBlock (c : AesCipher) (b : Bytes) : Bytes :=
  (encryptState c (State.ofBytes b)).toBytes

/-- Decrypt one 16-byte block. -/
def decryptBlock (c : AesCipher) (b : Bytes) : Bytes :=
  (decryptState c (State.ofBytes b)).toBytes

/-- Cut a byte string into `n` blocks of 16 bytes. -/
def toBlocks : Nat → Bytes → List Bytes
  | 0, _ => []
  | n + 1, b => b.take 16 :: toBlocks n (b.drop 16)

/-- CBC decryption of a list of blocks: each block is deciphered and
exclusive-or-ed with the ciphertext block before it, the first with the IV. -/
def cbcDecryptBlocks (c : AesCipher) : Bytes → List Bytes → Bytes
  | _, [] => []
  | prev, b :: bs => xorBytes (decryptBlock c b) prev ++ cbcDecryptBlocks c b bs

/-- The value `cipher.NewCBCDecrypter` returns: a block cipher and an IV. -/
structure CbcDecrypter where
  block : AesCipher
  iv : Bytes
  deriving DecidableEq, Repr

/-- The function `cipher.NewCBCDecrypter`: it panics unless the IV has the
block size. -/
def newCBCDecrypter (b : AesCipher) (iv : Bytes) : Run CbcDecrypter :=
  if iv.length ≠ 16 then .panic .cbcIVLength else .ret { block := b, iv := iv }

/-- The method `CryptBlocks(dst, src)` of a CBC decrypter, for a `dst` as long
as `src`: it panics unless `src` is a whole number of blocks, and returns the
content of `dst`. -/
def cryptBlocks (m : CbcDecrypter) (src : Bytes) : Run Bytes :=
  if src.length % 16 ≠ 0 then .panic .cbcNotFullBlocks
  else .ret (cbcDecryptBlocks m.block m.iv (toBlocks (src.length / 16) src))

/-! ## `ufutil_decoder.go` -/

/-- The function `generateKey`. -/
def generateKey (salt passphrase : Bytes) (keySize iterationCount : Int) :
    Run (Bytes × Option GoError) :=
  match hexDecodeString salt with
  | (_, some err) => .ret ([], some err)
  | (saltBytes, none) =>
    match pbkdf2Key passphrase saltBytes iterationCount keySize with
    | .panic p => .panic p
    | .ret key => .ret (key, none)

/-- The function `pkcs7Unpad`: `data[length-1]` panics on an empty slice, and
the slice expression `data[:(length - unpadding)]` panics on a negative
bound. -/
def pkcs7Unpad (data : Bytes) (_blockSize : Int) : Run Bytes :=
  let length : Int := data.length
  match data.getLast? with
  | none => .panic .indexOutOfRange
  | some last =>
    let unpadding : Int := last.val
    if length - unpadding < 0 then .panic .sliceBounds
    else .ret (data.take (length - unpadding).toNat)

/-- The function `decryptAES`. -/
def decryptAES (salt iv passphrase ciphertext : Bytes) (keySize iterationCount : Int) :
    Run (Bytes × Option GoError) :=
  match generateKey salt passphrase keySize iterationCount with
  | .panic p => .panic p
  | .ret (_, some err) => .ret ([], some err)
  | .ret (key, none) =>
    match hexDecodeString iv with
    | (_, some err) => .ret ([], some err)
    | (ivBytes, none) =>
      match base64DecodeString ciphertext with
      | (_, some err) => .ret ([], some err)
      | (ciphertextBytes, none) =>
        match aesNewCipher key with
        | .error err => .ret ([], some err)
        | .ok block =>
          match newCBCDecrypter block ivBytes with
          | .panic p => .panic p
          | .ret mode =>
            match cryptBlocks mode ciphertextBytes with
            | .panic p => .panic p
            | .ret plainBytes =>
              match pkcs7Unpad plainBytes 16 with
              | .panic p => .panic p
              | .ret plain => .ret (plain, none)

/-- The constant `salt` of `decryptText`. -/
def salt : Bytes := ascii "3FF2EC019C627B945225DEBAD71A01B6985FE84C95A70EB132882F88C0A59A55"

/-- The constant `iv` of `decryptText`. -/
def iv : Bytes := ascii "F27D5C9927726BCEFE7510B1BDD3D137"

/-- The constant `keySize` of `decryptText`. -/
def keySize : Int := 16

/-- The constant `iterCount` of `decryptText`. -/
def iterCount : Int := 10

/-- The function `decryptText`. -/
def decryptText (encryptedText passphrase : Bytes) : Run (Bytes × Option GoError) :=
  decryptAES salt iv passphrase encryptedText keySize iterCount

/-- The function `strings.LastIndex` tried at the offsets `i, i - 1, ..., 0`. -/
def lastIndexFrom (s sep : Bytes) : Nat → Int
  | 0 => if sep.isPrefixOf s then 0 else -1
  | i + 1 => if sep.isPrefixOf (s.drop (i + 1)) then ((i + 1 : Nat) : Int) else lastIndexFrom s sep i

/-- The function `strings.LastIndex`: the offset of the last occurrence of
`sep` in `s`, or `-1` when there is none. -/
def stringsLastIndex (s sep : Bytes) : Int :=
  if sep.length > s.length then -1 else lastIndexFrom s sep (s.length - sep.length)

/-- The slice expression `s[lo:]`, which panics when `lo` is out of range. -/
def sliceFrom (s : Bytes) (lo : Int) : Run Bytes :=
  if lo < 0 ∨ lo > s.length then .panic .sliceBounds else .ret (s.drop lo.toNat)

/-- The slice expression `s[:hi]`, which panics when `hi` is out of range. -/
def sliceTo (s : Bytes) (hi : Int) : Run Bytes :=
  if hi < 0 ∨ hi > s.length then .panic .sliceBounds else .ret (s.take hi.toNat)

/-- The constant `markerB64` of `decryptEncodedJson`. -/
def markerB64 : Bytes := ascii "RzJiMVVGWU1Zak5WaVBaWTZiU3B2SG5OWXhI"

/-- The marker token: the bytes `markerB64` decodes to. -/
def markerStr : Bytes := (base64DecodeString markerB64).1

/-- The tail of `decryptEncodedJson` once `decryptText` has returned. -/
def afterDecrypt : Run (Bytes × Option GoError) → Run (Bytes × Option GoError)
  | .panic p => .panic p
  | .ret (_, some err) => .ret ([], some err)
  | .ret (decryptedText, none) =>
    if decryptedText = [] then .ret ([], some .emptyDecrypt)
    else .ret (decryptedText, none)

/-- The function `decryptEncodedJson`. -/
def decryptEncodedJson (encodedJSONStr : Bytes) : Run (Bytes × Option GoError) :=
  match base64DecodeString markerB64 with
  | (_, some err) => .ret ([], some err)
  | (marker, none) =>
    let startIndex := stringsLastIndex encodedJSONStr marker
    if startIndex = -1 then .ret ([], none)
    else
      match sliceFrom encodedJSONStr (startIndex + marker.length) with
      | .panic p => .panic p
      | .ret passphrase =>
        if passphrase ≠ [] then
          match sliceTo encodedJSONStr startIndex with
          | .panic p => .panic p
          | .ret encryptedText => afterDecrypt (decryptText encryptedText passphrase)
        else .ret ([], none)

/-! ## `gufu.go` -/

/-- The function `Descriptografar`. -/
def Descriptografar (corpo : Bytes) : Run (Bytes × Option GoError) :=
  decryptEncodedJson corpo

/-! ## The encode direction

`Criptografar` calls `criptografarRequestParams`, whose source is not part of
the files at hand; it is modelled from sections 4.2 and 4.4 of the
specification. -/

/-- Modelled from the spec: the padding step of `criptografarRequestParams`,
which is missing from the sources ("apply PKCS7 padding to the next multiple
of the 16-byte block size"). -/
def pkcs7Pad (data : Bytes) : Bytes :=
  data ++ List.replicate (16 - data.length % 16) (Fin.ofNat (16 - data.length % 16))

/-- Modelled from the spec: the CBC encryption step of
`criptografarRequestParams`, which is missing from the sources: each block is
exclusive-or-ed with the ciphertext block before it, the first with the IV,
and enciphered. -/
def cbcEncryptBlocks (c : AesCipher) : Bytes → List Bytes → Bytes
  | _, [] => []
  | prev, b :: bs =>
    encryptBlock c (xorBytes b prev) ++ cbcEncryptBlocks c (encryptBlock c (xorBytes b prev)) bs

/-- Modelled from the spec: the encrypt direction of the block cipher engine
used by `criptografarRequestParams`, which is missing from the sources: derive
the key, pad, encrypt with AES-CBC under the fixed IV, encode as base64. -/
def encryptAES (salt iv passphrase plaintext : Bytes) (keySize iterationCount : Int) :
    Run (Bytes × Option GoError) :=
  match generateKey salt passphrase keySize iterationCount with
  | .panic p => .panic p
  | .ret (_, some err) => .ret ([], some err)
  | .ret (key, none) =>
    match hexDecodeString iv with
    | (_, some err) => .ret ([], some err)
    | (ivBytes, none) =>
      match aesNewCipher key with
      | .error err => .ret ([], some err)
      | .ok block =>
        if ivBytes.length ≠ 16 then .panic .cbcIVLength
        else
          let padded := pkcs7Pad plaintext
          .ret (base64EncodeToString
            (cbcEncryptBlocks block ivBytes (toBlocks (padded.length / 16) padded)), none)

/-- Modelled from the spec: the counterpart of `decryptText` for
`criptografarRequestParams`, which is missing from the sources, with the same
fixed constants. -/
def encryptText (plainText passphrase : Bytes) : Run (Bytes × Option GoError) :=
  encryptAES salt iv passphrase plainText keySize iterCount

/-- Modelled from the spec: the function `criptografarRequestParams`, which is
missing from the sources.  The passphrase that the specification draws from a
random source is an argument; the envelope is the base64 ciphertext, the
marker token and the passphrase, concatenated. -/
def criptografarRequestParams (passphrase json : Bytes) : Run (Bytes × Option GoError) :=
  match encryptText json passphrase with
  | .panic p => .panic p
  | .ret (_, some err) => .ret ([], some err)
  | .ret (ciphertext, none) => .ret (ciphertext ++ markerStr ++ passphrase, none)

/-- The function `Criptografar`, for the passphrase drawn in this call. -/
def Criptografar (passphrase json : Bytes) : Run (Bytes × Option GoError) :=
  criptografarRequestParams passphrase json

/-- The input of `TestDescriptografar`. -/
def knownVector : Bytes :=
  ascii "qb/ItbJgpIk88xrKTjGpKQ==G2b1UFYMYjNViPZY6bSpvHnNYxHHjVSaWQaJcBxegnjiODm3vs2a"

/-! ## Well-formed base64, in the words of the specification -/

/-- Whether a byte is a character of the standard base64 alphabet. -/
def isAlphabet (c : Byte) : Bool := (decodeMap c).isSome

/-- Following the words of the specification ("standard base64 alphabet, no
line wrapping"): a well-formed standard base64 text is a sequence of groups of
four characters of the alphabet, of which the last group may end in one or two
padding characters. -/
def wellFormedBase64 : Bytes → Bool
  | [] => true
  | a :: b :: c :: d :: rest =>
    isAlphabet a && isAlphabet b &&
      ((isAlphabet c && isAlphabet d && wellFormedBase64 rest) ||
        (rest.isEmpty && ((c == padChar && d == padChar) || (isAlphabet c && d == padChar))))
  | _ => false

/-- A byte string without its line feeds and carriage returns. -/
def stripNewlines (s : Bytes) : Bytes := s.filter (fun c => !isNewline c)

/-! ## `gufu.go`: the menu of one campus -/

/-- The type `Campus`. -/
structure Campus where
  ID : Int
  Nome : Bytes
  deriving DecidableEq, Repr

/-- The entries of the map `Campi`. -/
def Campi : List (Bytes × Campus) :=
  [(ascii "sm", { ID := 277, Nome := ascii "Santa M" ++ [195, 180] ++ ascii "nica" }),
    (ascii "um", { ID := 279, Nome := ascii "Umuarama" }),
    (ascii "gl", { ID := 1747, Nome := ascii "Gl" ++ [195, 179] ++ ascii "ria" }),
    (ascii "po", { ID := 278, Nome := ascii "Pontal" }),
    (ascii "mc", { ID := 6097, Nome := ascii "Monte Carmelo" })]

/-- The index expression `Campi[campus]` with its `ok` flag: the entry of the
key, or `none` when the map has no such key. -/
def campiLookup (campus : Bytes) : Option Campus := Campi.lookup campus

/-- Error values of the functions of `gufu.go` that fetch a menu. -/
inductive ApiError where
  /-- The value of `errors.New("campus inválido")`. -/
  | campusInvalido
  /-- The variable `ErrNãoHáRefeições`. -/
  | naoHaRefeicoes
  /-- An error returned by `Descriptografar`. -/
  | codec (e : GoError)
  /-- An error of `net/http`, `io` or `encoding/json`, by its message. -/
  | external (msg : Bytes)
  /-- The value of `fmt.Errorf("%v: %v", err, decryptBody)`. -/
  | wrapped (err : ApiError) (decryptBody : Bytes)
  deriving DecidableEq, Repr

/-- What lies outside the program: the HTTP exchange and the JSON decoder.
`Cardapio` is the type of a decoded menu and `Resp` the type of a response. -/
structure World (Cardapio Resp : Type) where
  /-- The function `requisiçãoGenerica(url, metodo, nil)`: a response, or the
  error of `http.NewRequest` or of `ClienteHTTP.Do`. -/
  requisicaoGenerica : Bytes → Bytes → Except ApiError Resp
  /-- The function `io.ReadAll` on the body of a response. -/
  readAll : Resp → Bytes × Option ApiError
  /-- The function `json.Unmarshal` into a `Cardapio`. -/
  unmarshalCardapio : Bytes → Cardapio × Option ApiError
  /-- The function `json.Unmarshal` into a `[]Cardapio`. -/
  unmarshalCardapios : Bytes → Option (List Cardapio) × Option ApiError

/-- The variable `mobileApiUrl`. -/
def mobileApiUrl : Bytes := ascii "https://www.sistemas.ufu.br/mobile-gateway"

/-- The constant `http.MethodGet`. -/
def methodGet : Bytes := ascii "GET"

/-- The verb `%d` of `fmt.Sprintf` for an `int`. -/
def formatInt (n : Int) : Bytes := ascii (toString n)

/-- The function `ObterCardapiosFuturosPorCampus`; a nil slice is `none`. -/
def ObterCardapiosFuturosPorCampus {Cardapio Resp : Type} (w : World Cardapio Resp)
    (campus : Bytes) : Run (Option (List Cardapio) × Option ApiError) :=
  match campiLookup campus with
  | none => .ret (none, some .campusInvalido)
  | some campusID =>
    match w.requisicaoGenerica
        (mobileApiUrl ++ ascii "/api/proximos-cardapios/" ++ formatInt campusID.ID) methodGet with
    | .error err => .ret (none, some err)
    | .ok resp =>
      match w.readAll resp with
      | (_, some err) => .ret (none, some err)
      | (bodyResp, none) =>
        match Descriptografar bodyResp with
        | .panic p => .panic p
        | .ret (_, some err) => .ret (none, some (.codec err))
        | .ret (decryptBody, none) =>
          if decryptBody = ascii "{}" then .ret (none, some .naoHaRefeicoes)
          else
            match w.unmarshalCardapios decryptBody with
            | (_, some err) => .ret (none, some (.wrapped err decryptBody))
            | (cardapios, none) => .ret (cardapios, none)

/-- The function `ObterCardapioPorCampus`; a nil pointer is `none`. -/
def ObterCardapioPorCampus {Cardapio Resp : Type} (w : World Cardapio Resp)
    (campus : Bytes) : Run (Option Cardapio × Option ApiError) :=
  match campiLookup campus with
  | none => .ret (none, some .campusInvalido)
  | some campusID =>
    match w.requisicaoGenerica
        (mobileApiUrl ++ ascii "/api/cardapios/" ++ formatInt campusID.ID) methodGet with
    | .error err => .ret (none, some err)
    | .ok resp =>
      match w.readAll resp with
      | (_, some err) => .ret (none, some err)
      | (bodyResp, none) =>
        match Descriptografar bodyResp with
        | .panic p => .panic p
        | .ret (_, some err) => .ret (none, some (.codec err))
        | .ret (decryptBody, none) =>
          if decryptBody = ascii "{}" then .ret (none, some .naoHaRefeicoes)
          else
            match w.unmarshalCardapio decryptBody with
            | (_, some err) => .ret (none, some err)
            | (cardapio, none) => .ret (some cardapio, none)

/-! ## Facts about `strings.LastIndex` -/

theorem occurs_of_isPrefixOf_drop {s sep : Bytes} {j : Nat}
    (h : sep.isPrefixOf (s.drop j) = true) : sep <:+: s := by
  rw [List.isPrefixOf_iff_prefix] at h
  exact h.isInfix.trans (List.drop_suffix j s).isInfix

theorem lastIndexFrom_none (s sep : Bytes) (i : Nat)
    (h : ∀ j, j ≤ i → sep.isPrefixOf (s.drop j) = false) : lastIndexFrom s sep i = -1 := by
  induction i with
  | zero =>
    have h0 := h 0 (Nat.le_refl 0)
    simp only [List.drop_zero] at h0
    simp [lastIndexFrom, h0]
  | succ n ih =>
    have hn := h (n + 1) (Nat.le_refl _)
    simp only [lastIndexFrom, hn]
    exact ih (fun j hj => h j (Nat.le_succ_of_le hj))

theorem lastIndexFrom_found (s sep : Bytes) (i k : Nat) (hk : k ≤ i)
    (hm : sep.isPrefixOf (s.drop k) = true)
    (hno : ∀ j, k < j → j ≤ i → sep.isPrefixOf (s.drop j) = false) :
    lastIndexFrom s sep i = (k : Int) := by
  induction i with
  | zero =>
    have hk0 : k = 0 := Nat.le_zero.mp hk
    subst hk0
    simp only [List.drop_zero] at hm
    simp [lastIndexFrom, hm]
  | succ n ih =>
    by_cases hkn : k = n + 1
    · subst hkn
      simp [lastIndexFrom, hm]
    · have hlt : k < n + 1 := Nat.lt_of_le_of_ne hk hkn
      have hn := hno (n + 1) hlt (Nat.le_refl _)
      simp only [lastIndexFrom, hn]
      exact ih (Nat.lt_succ_iff.mp hlt) (fun j h1 h2 => hno j h1 (Nat.le_succ_of_le h2))

theorem stringsLastIndex_none (s sep : Bytes) (h : ¬ sep <:+: s) :
    stringsLastIndex s sep = -1 := by
  unfold stringsLastIndex
  split
  · rfl
  · apply lastIndexFrom_none
    intro j _
    cases hp : sep.isPrefixOf (s.drop j)
    · rfl
    · exact absurd (occurs_of_isPrefixOf_drop hp) h

/-- A separator whose first byte does not occur again in it cannot start
inside one of its own occurrences. -/
theorem no_overlap (a : Byte) (t p : Bytes) (ha : a ∉ t) (d : Nat) (h1 : 1 ≤ d)
    (h2 : d < (a :: t).length) : (a :: t).isPrefixOf ((a :: t ++ p).drop d) = false := by
  obtain ⟨e, rfl⟩ : ∃ e, d = e + 1 := ⟨d - 1, by omega⟩
  have he : e < t.length := by simpa using h2
  cases hp : (a :: t).isPrefixOf ((a :: t ++ p).drop (e + 1))
  · rfl
  · exfalso
    rw [List.isPrefixOf_iff_prefix] at hp
    simp only [List.cons_append, List.drop_succ_cons] at hp
    rw [List.drop_append_of_le_length (Nat.le_of_lt he)] at hp
    have hne : t.drop e ≠ [] := by
      intro hnil
      have := congrArg List.length hnil
      simp at this
      omega
    obtain ⟨x, r, hxr⟩ := List.exists_cons_of_ne_nil hne
    rw [hxr, List.cons_append, List.cons_prefix_cons] at hp
    have hx : x ∈ t := List.mem_of_mem_drop (by rw [hxr]; exact List.mem_cons_self x r)
    exact ha (hp.1 ▸ hx)

theorem stringsLastIndex_split (a : Byte) (t c p : Bytes) (ha : a ∉ t)
    (hp : ¬ (a :: t) <:+: p) :
    stringsLastIndex (c ++ (a :: t) ++ p) (a :: t) = (c.length : Int) := by
  unfold stringsLastIndex
  have hlen : ¬ (a :: t).length > (c ++ (a :: t) ++ p).length := by
    simp only [List.length_append]
    omega
  rw [if_neg hlen]
  apply lastIndexFrom_found
  · simp only [List.length_append]
    omega
  · rw [List.isPrefixOf_iff_prefix, List.append_assoc, List.drop_left]
    exact List.prefix_append _ _
  · intro j hj1 hj2
    obtain ⟨d, rfl⟩ : ∃ d, j = c.length + d := ⟨j - c.length, by omega⟩
    have hd : 1 ≤ d := by omega
    rw [List.append_assoc, ← List.drop_drop, List.drop_left]
    by_cases hdm : d < (a :: t).length
    · exact no_overlap a t p ha d hd hdm
    · cases hq : (a :: t).isPrefixOf (((a :: t) ++ p).drop d)
      · rfl
      · exfalso
        apply hp
        obtain ⟨e, rfl⟩ : ∃ e, d = (a :: t).length + e := ⟨d - (a :: t).length, by omega⟩
        rw [← List.drop_drop, List.drop_left] at hq
        exact occurs_of_isPrefixOf_drop hq

/-! ## The marker token -/

theorem markerStr_eq : markerStr =
    71 :: [50, 98, 49, 85, 70, 89, 77, 89, 106, 78, 86, 105, 80, 90, 89, 54, 98, 83, 112,
      118, 72, 110, 78, 89, 120, 72] := by
  decide

theorem marker_decode : base64DecodeString markerB64 = (markerStr, none) := by
  decide

theorem markerStr_length : markerStr.length = 27 := by
  rw [markerStr_eq]; rfl

theorem marker_lastIndex (c p : Bytes) (hp : ¬ markerStr <:+: p) :
    stringsLastIndex (c ++ markerStr ++ p) markerStr = (c.length : Int) := by
  rw [markerStr_eq] at hp ⊢
  exact stringsLastIndex_split _ _ c p (by decide) hp

/-- What `decryptEncodedJson` does once the marker has been found at offset
`i`. -/
theorem decryptEncodedJson_at (s : Bytes) (i : Nat)
    (hi : stringsLastIndex s markerStr = (i : Int)) (hlen : i + markerStr.length ≤ s.length) :
    decryptEncodedJson s =
      if s.drop (i + markerStr.length) ≠ [] then
        afterDecrypt (decryptText (s.take i) (s.drop (i + markerStr.length)))
      else .ret ([], none) := by
  unfold decryptEncodedJson
  rw [marker_decode]
  simp only [hi]
  have h1 : ¬ ((i : Int) = -1) := by omega
  have h2 : ¬ (((i : Int) + (markerStr.length : Int) < 0) ∨
      ((i : Int) + (markerStr.length : Int) > (s.length : Int))) := by omega
  have h3 : ¬ (((i : Int) < 0) ∨ ((i : Int) > (s.length : Int))) := by omega
  have h4 : ((i : Int) + (markerStr.length : Int)).toNat = i + markerStr.length := by omega
  simp only [h1, if_false, sliceFrom, sliceTo, h2, h3, h4, Int.toNat_ofNat]

theorem envelope_split (c p : Bytes) (hne : p ≠ []) (hp : ¬ markerStr <:+: p) :
    decryptEncodedJson (c ++ markerStr ++ p) = afterDecrypt (decryptText c p) := by
  have hi := marker_lastIndex c p hp
  have hdrop : (c ++ markerStr ++ p).drop (c.length + markerStr.length) = p := by
    rw [← List.length_append, List.drop_left]
  have htake : (c ++ markerStr ++ p).take c.length = c := by
    rw [List.append_assoc, List.take_left]
  rw [decryptEncodedJson_at _ c.length hi (by simp only [List.length_append]; omega),
    hdrop, htake, if_pos hne]

/-! ## Exclusive or on bytes and the inverse of the AES round -/

theorem byte_xor_val (a b : Byte) : (a ^^^ b).val = a.val ^^^ b.val := by
  have h : a.val ^^^ b.val < 2 ^ 8 := Nat.xor_lt_two_pow a.isLt b.isLt
  show (a.val ^^^ b.val) % 256 = a.val ^^^ b.val
  exact Nat.mod_eq_of_lt h

theorem byte_xor_comm (a b : Byte) : a ^^^ b = b ^^^ a := by
  apply Fin.ext
  rw [byte_xor_val, byte_xor_val, Nat.xor_comm]

theorem byte_xor_assoc (a b c : Byte) : (a ^^^ b) ^^^ c = a ^^^ (b ^^^ c) := by
  apply Fin.ext
  simp only [byte_xor_val, Nat.xor_assoc]

theorem byte_xor_self (a : Byte) : a ^^^ a = 0 := by
  apply Fin.ext
  rw [byte_xor_val, Nat.xor_self]
  rfl

theorem byte_xor_zero (a : Byte) : a ^^^ 0 = a := by
  apply Fin.ext
  rw [byte_xor_val]
  exact Nat.xor_zero a.val

theorem byte_zero_xor (a : Byte) : 0 ^^^ a = a := by
  rw [byte_xor_comm, byte_xor_zero]

theorem byte_xor_cancel (a b : Byte) : (a ^^^ b) ^^^ b = a := by
  rw [byte_xor_assoc, byte_xor_self, byte_xor_zero]

theorem byte_xor_regroup (x1 x2 x3 x4 y1 y2 y3 y4 : Byte) :
    (x1 ^^^ y1) ^^^ (x2 ^^^ y2) ^^^ (x3 ^^^ y3) ^^^ (x4 ^^^ y4) =
      (x1 ^^^ x2 ^^^ x3 ^^^ x4) ^^^ (y1 ^^^ y2 ^^^ y3 ^^^ y4) := by
  apply Fin.ext
  simp only [byte_xor_val]
  ac_rfl

theorem nat_mul_two_xor (a b : Nat) : (a ^^^ b) * 2 = (a * 2) ^^^ (b * 2) := by
  apply Nat.eq_of_testBit_eq
  intro i
  have h : ∀ x : Nat, x * 2 = x <<< 1 := fun x => by rw [Nat.shiftLeft_eq]
  rw [h, h, h]
  simp only [Nat.testBit_xor, Nat.testBit_shiftLeft]
  cases decide (i ≥ 1) <;> rfl

set_option maxRecDepth 100000 in
theorem xtime_val_all : ∀ b : Byte,
    (xtime b).val = (b.val * 2) ^^^ (if b.val.testBit 7 then 283 else 0) := by
  decide!

theorem xtime_xor (a b : Byte) : xtime (a ^^^ b) = xtime a ^^^ xtime b := by
  apply Fin.ext
  have hc : ∀ p q : Bool, (if (p ^^ q) = true then 283 else 0) =
      (if p = true then 283 else 0) ^^^ (if q = true then 283 else 0) := by
    intro p q
    cases p <;> cases q <;> rfl
  rw [byte_xor_val, xtime_val_all, xtime_val_all, xtime_val_all, byte_xor_val,
    nat_mul_two_xor, Nat.testBit_xor, hc]
  ac_rfl

theorem mul3_xor (a b : Byte) : mul3 (a ^^^ b) = mul3 a ^^^ mul3 b := by
  apply Fin.ext
  simp only [mul3, xtime_xor, byte_xor_val]
  ac_rfl

theorem mul9_xor (a b : Byte) : mul9 (a ^^^ b) = mul9 a ^^^ mul9 b := by
  apply Fin.ext
  simp only [mul9, xtime_xor, byte_xor_val]
  ac_rfl

theorem mul11_xor (a b : Byte) : mul11 (a ^^^ b) = mul11 a ^^^ mul11 b := by
  apply Fin.ext
  simp only [mul11, xtime_xor, byte_xor_val]
  ac_rfl

theorem mul13_xor (a b : Byte) : mul13 (a ^^^ b) = mul13 a ^^^ mul13 b := by
  apply Fin.ext
  simp only [mul13, xtime_xor, byte_xor_val]
  ac_rfl

theorem mul14_xor (a b : Byte) : mul14 (a ^^^ b) = mul14 a ^^^ mul14 b := by
  apply Fin.ext
  simp only [mul14, xtime_xor, byte_xor_val]
  ac_rfl

theorem mixColumn_xor (u v : Col) : mixColumn (u.xor v) = (mixColumn u).xor (mixColumn v) := by
  simp only [mixColumn, Col.xor, xtime_xor, mul3_xor, byte_xor_regroup]

theorem invMixColumn_xor (u v : Col) :
    invMixColumn (u.xor v) = (invMixColumn u).xor (invMixColumn v) := by
  simp only [invMixColumn, Col.xor, mul9_xor, mul11_xor, mul13_xor, mul14_xor, byte_xor_regroup]

set_option maxRecDepth 100000 in
theorem invMix_mix_unit : ∀ a : Byte,
    invMixColumn (mixColumn ⟨a, 0, 0, 0⟩) = ⟨a, 0, 0, 0⟩ ∧
    invMixColumn (mixColumn ⟨0, a, 0, 0⟩) = ⟨0, a, 0, 0⟩ ∧
    invMixColumn (mixColumn ⟨0, 0, a, 0⟩) = ⟨0, 0, a, 0⟩ ∧
    invMixColumn (mixColumn ⟨0, 0, 0, a⟩) = ⟨0, 0, 0, a⟩ := by
  decide!

theorem col_split (w : Col) :
    w = (Col.mk w.b0 0 0 0).xor ((Col.mk 0 w.b1 0 0).xor ((Col.mk 0 0 w.b2 0).xor
      (Col.mk 0 0 0 w.b3))) := by
  simp only [Col.xor, byte_xor_zero, byte_zero_xor]

theorem invMixColumn_mixColumn (w : Col) : invMixColumn (mixColumn w) = w := by
  conv_lhs => rw [col_split w]
  simp only [mixColumn_xor, invMixColumn_xor, (invMix_mix_unit _).1, (invMix_mix_unit _).2.1,
    (invMix_mix_unit _).2.2.1, (invMix_mix_unit _).2.2.2]
  exact (col_split w).symm

set_option maxRecDepth 100000 in
theorem invSbox_sbox : ∀ b : Byte, invSbox (sbox b) = b := by
  decide!

theorem col_xor_cancel (u v : Col) : (u.xor v).xor v = u := by
  simp only [Col.xor, byte_xor_cancel]

theorem addRoundKey_cancel (s k : State) : addRoundKey (addRoundKey s k) k = s := by
  simp only [addRoundKey, col_xor_cancel]

theorem invShiftRows_shiftRows (s : State) : invShiftRows (shiftRows s) = s := rfl

theorem invSubBytes_subBytes (s : State) : invSubBytes (subBytes s) = s := by
  simp only [invSubBytes, subBytes, Col.map, invSbox_sbox]

theorem invMixColumns_mixColumns (s : State) : invMixColumns (mixColumns s) = s := by
  simp only [invMixColumns, mixColumns, invMixColumn_mixColumn]

theorem decRounds_encRounds (c : AesCipher) (n : Nat) (s : State) :
    decRounds c n (encRounds c n s) = s := by
  induction n generalizing s with
  | zero => rfl
  | succ n ih =>
    simp only [encRounds, decRounds, addRoundKey_cancel, invMixColumns_mixColumns,
      invShiftRows_shiftRows, invSubBytes_subBytes, ih]

theorem decryptState_encryptState (c : AesCipher) (s : State) :
    decryptState c (encryptState c s) = s := by
  simp only [encryptState, decryptState, addRoundKey_cancel, invShiftRows_shiftRows,
    invSubBytes_subBytes, decRounds_encRounds]

/-! ## Base64 encoding followed by decoding -/

set_option maxRecDepth 100000 in
theorem decodeMap_encodeMap : ∀ v : Fin 64, decodeMap (encodeMap v.val) = some v.val := by
  decide!

theorem decodeMap_encodeMap_lt (v : Nat) (h : v < 64) : decodeMap (encodeMap v) = some v :=
  decodeMap_encodeMap ⟨v, h⟩

theorem b64Decode_quantum (v0 v1 v2 v3 : Nat) (h0 : v0 < 64) (h1 : v1 < 64) (h2 : v2 < 64)
    (h3 : v3 < 64) (rest : Bytes) (si : Nat) :
    b64Decode (encodeMap v0 :: encodeMap v1 :: encodeMap v2 :: encodeMap v3 :: rest) si [] =
      (quantumBytes [v0, v1, v2, v3] ++ (b64Decode rest (si + 1 + 1 + 1 + 1) []).1,
        (b64Decode rest (si + 1 + 1 + 1 + 1) []).2) := by
  simp [b64Decode, decodeMap_encodeMap_lt, h0, h1, h2, h3]

theorem quantumBytes_full (a b c : Byte) :
    quantumBytes [a.val / 4, a.val % 4 * 16 + b.val / 16, b.val % 16 * 4 + c.val / 64,
      c.val % 64] = [a, b, c] := by
  have ha := a.isLt
  have hb := b.isLt
  have hc := c.isLt
  simp only [quantumBytes, List.getD_cons_zero, List.getD_cons_succ, List.length_cons,
    List.length_nil]
  have e1 : (a.val / 4 * 262144 + (a.val % 4 * 16 + b.val / 16) * 4096 +
      (b.val % 16 * 4 + c.val / 64) * 64 + c.val % 64) = a.val * 65536 + b.val * 256 + c.val := by
    omega
  rw [e1]
  have f1 : (Fin.ofNat ((a.val * 65536 + b.val * 256 + c.val) / 65536) : Byte) = a := by
    apply Fin.ext
    show (a.val * 65536 + b.val * 256 + c.val) / 65536 % 256 = a.val
    omega
  have f2 : (Fin.ofNat ((a.val * 65536 + b.val * 256 + c.val) / 256) : Byte) = b := by
    apply Fin.ext
    show (a.val * 65536 + b.val * 256 + c.val) / 256 % 256 = b.val
    omega
  have f3 : (Fin.ofNat (a.val * 65536 + b.val * 256 + c.val) : Byte) = c := by
    apply Fin.ext
    show (a.val * 65536 + b.val * 256 + c.val) % 256 = c.val
    omega
  rw [f1, f2, f3]
  rfl

theorem quantumBytes_one (a : Byte) :
    quantumBytes [a.val / 4, a.val % 4 * 16] = [a] := by
  have ha := a.isLt
  simp only [quantumBytes, List.getD_cons_zero, List.getD_cons_succ, List.length_cons,
    List.length_nil, List.getD_nil]
  have e1 : (a.val / 4 * 262144 + (a.val % 4 * 16) * 4096 + 0 * 64 + 0) = a.val * 65536 := by
    omega
  rw [e1]
  have f1 : (Fin.ofNat ((a.val * 65536) / 65536) : Byte) = a := by
    apply Fin.ext
    show (a.val * 65536) / 65536 % 256 = a.val
    omega
  rw [f1]
  rfl

theorem quantumBytes_two (a b : Byte) :
    quantumBytes [a.val / 4, a.val % 4 * 16 + b.val / 16, b.val % 16 * 4] = [a, b] := by
  have ha := a.isLt
  have hb := b.isLt
  simp only [quantumBytes, List.getD_cons_zero, List.getD_cons_succ, List.length_cons,
    List.length_nil, List.getD_nil]
  have e1 : (a.val / 4 * 262144 + (a.val % 4 * 16 + b.val / 16) * 4096 +
      (b.val % 16 * 4) * 64 + 0) = a.val * 65536 + b.val * 256 := by
    omega
  rw [e1]
  have f1 : (Fin.ofNat ((a.val * 65536 + b.val * 256) / 65536) : Byte) = a := by
    apply Fin.ext
    show (a.val * 65536 + b.val * 256) / 65536 % 256 = a.val
    omega
  have f2 : (Fin.ofNat ((a.val * 65536 + b.val * 256) / 256) : Byte) = b := by
    apply Fin.ext
    show (a.val * 65536 + b.val * 256) / 256 % 256 = b.val
    omega
  rw [f1, f2]
  rfl

theorem decodeMap_padChar : decodeMap padChar = none := by decide

theorem isNewline_padChar : isNewline padChar = false := by decide

theorem b64Decode_one (a : Byte) (si : Nat) :
    b64Decode (base64EncodeToString [a]) si [] = ([a], none) := by
  have ha := a.isLt
  have h0 : a.val / 4 < 64 := by omega
  have h1 : a.val % 4 * 16 < 64 := by omega
  simp [base64EncodeToString, b64Decode, decodeMap_encodeMap_lt, h0, h1, decodeMap_padChar,
    isNewline_padChar, skipNewlines, b64Finish, quantumBytes_one]

theorem b64Decode_two (a b : Byte) (si : Nat) :
    b64Decode (base64EncodeToString [a, b]) si [] = ([a, b], none) := by
  have ha := a.isLt
  have hb := b.isLt
  have h0 : a.val / 4 < 64 := by omega
  have h1 : a.val % 4 * 16 + b.val / 16 < 64 := by omega
  have h2 : b.val % 16 * 4 < 64 := by omega
  simp [base64EncodeToString, b64Decode, decodeMap_encodeMap_lt, h0, h1, h2, decodeMap_padChar,
    isNewline_padChar, skipNewlines, b64Finish, quantumBytes_two]

theorem base64_roundtrip_aux : ∀ (n : Nat) (b : Bytes) (si : Nat), b.length ≤ n →
    b64Decode (base64EncodeToString b) si [] = (b, none) := by
  intro n
  induction n using Nat.strong_induction_on with
  | _ n ih =>
    intro b si hn
    match b, hn with
    | [], _ => simp [base64EncodeToString, b64Decode]
    | [a], _ => exact b64Decode_one a si
    | [a, b], _ => exact b64Decode_two a b si
    | a :: b :: c :: rest, hn =>
      have hlt : rest.length < n := by simp at hn; omega
      have ha := a.isLt
      have hb := b.isLt
      have hc := c.isLt
      rw [base64EncodeToString, b64Decode_quantum _ _ _ _ (by omega) (by omega) (by omega)
        (by omega), ih rest.length hlt rest _ (Nat.le_refl _), quantumBytes_full]
      rfl

theorem base64_roundtrip (b : Bytes) :
    base64DecodeString (base64EncodeToString b) = (b, none) :=
  base64_roundtrip_aux b.length b 0 (Nat.le_refl _)

/-! ## Blocks, CBC and padding -/

theorem ofBytes_toBytes (s : State) : State.ofBytes (State.toBytes s) = s := rfl

theorem toBytes_length (s : State) : (State.toBytes s).length = 16 := rfl

theorem cons_of_length {α : Type} {n : Nat} (l : List α) (h : l.length = n + 1) :
    ∃ a t, l = a :: t ∧ t.length = n := by
  cases l with
  | nil => simp at h
  | cons a t => exact ⟨a, t, rfl, by simpa using h⟩

theorem toBytes_ofBytes (b : Bytes) (h : b.length = 16) : State.toBytes (State.ofBytes b) = b := by
  obtain ⟨a0, t0, rfl, h0⟩ := cons_of_length b h
  obtain ⟨a1, t1, rfl, h1⟩ := cons_of_length t0 h0
  obtain ⟨a2, t2, rfl, h2⟩ := cons_of_length t1 h1
  obtain ⟨a3, t3, rfl, h3⟩ := cons_of_length t2 h2
  obtain ⟨a4, t4, rfl, h4⟩ := cons_of_length t3 h3
  obtain ⟨a5, t5, rfl, h5⟩ := cons_of_length t4 h4
  obtain ⟨a6, t6, rfl, h6⟩ := cons_of_length t5 h5
  obtain ⟨a7, t7, rfl, h7⟩ := cons_of_length t6 h6
  obtain ⟨a8, t8, rfl, h8⟩ := cons_of_length t7 h7
  obtain ⟨a9, t9, rfl, h9⟩ := cons_of_length t8 h8
  obtain ⟨a10, t10, rfl, h10⟩ := cons_of_length t9 h9
  obtain ⟨a11, t11, rfl, h11⟩ := cons_of_length t10 h10
  obtain ⟨a12, t12, rfl, h12⟩ := cons_of_length t11 h11
  obtain ⟨a13, t13, rfl, h13⟩ := cons_of_length t12 h12
  obtain ⟨a14, t14, rfl, h14⟩ := cons_of_length t13 h13
  obtain ⟨a15, t15, rfl, h15⟩ := cons_of_length t14 h14
  have hb : t15 = [] := List.length_eq_zero.mp h15
  subst hb
  rfl

theorem decryptBlock_encryptBlock (c : AesCipher) (b : Bytes) (h : b.length = 16) :
    decryptBlock c (encryptBlock c b) = b := by
  simp only [decryptBlock, encryptBlock, ofBytes_toBytes, decryptState_encryptState,
    toBytes_ofBytes b h]

theorem encryptBlock_length (c : AesCipher) (b : Bytes) : (encryptBlock c b).length = 16 := rfl

theorem xorBytes_length (a b : Bytes) : (xorBytes a b).length = min a.length b.length := by
  induction a generalizing b with
  | nil => simp [xorBytes]
  | cons x xs ih =>
    cases b with
    | nil => simp [xorBytes]
    | cons y ys => simp [xorBytes, ih, Nat.succ_min_succ]

theorem xorBytes_cancel (a b : Bytes) (h : a.length ≤ b.length) :
    xorBytes (xorBytes a b) b = a := by
  induction a generalizing b with
  | nil => simp [xorBytes]
  | cons x xs ih =>
    cases b with
    | nil => simp at h
    | cons y ys =>
      simp only [xorBytes, byte_xor_cancel]
      rw [ih ys (by simpa using h)]

theorem toBlocks_append (n : Nat) (e rest : Bytes) (he : e.length = 16) :
    toBlocks (n + 1) (e ++ rest) = e :: toBlocks n rest := by
  simp only [toBlocks]
  rw [List.take_left' he, List.drop_left' he]

theorem cbc_roundtrip (c : AesCipher) (blocks : List Bytes) (prev : Bytes)
    (hb : ∀ b ∈ blocks, b.length = 16) (hp : prev.length = 16) :
    (cbcEncryptBlocks c prev blocks).length = 16 * blocks.length ∧
    cbcDecryptBlocks c prev (toBlocks blocks.length (cbcEncryptBlocks c prev blocks)) =
      blocks.flatten := by
  induction blocks generalizing prev with
  | nil => exact ⟨rfl, rfl⟩
  | cons b bs ih =>
    have hb16 : b.length = 16 := hb b (List.mem_cons_self b bs)
    have hbs : ∀ x ∈ bs, x.length = 16 := fun x hx => hb x (List.mem_cons_of_mem b hx)
    have hx : (xorBytes b prev).length = 16 := by rw [xorBytes_length, hb16, hp]; rfl
    have he := encryptBlock_length c (xorBytes b prev)
    obtain ⟨ih1, ih2⟩ := ih (encryptBlock c (xorBytes b prev)) hbs he
    constructor
    · simp only [cbcEncryptBlocks, List.length_append, List.length_cons, he, ih1]
      omega
    · simp only [cbcEncryptBlocks, List.length_cons]
      rw [toBlocks_append _ _ _ he]
      simp only [cbcDecryptBlocks, List.flatten_cons]
      rw [decryptBlock_encryptBlock c _ hx, xorBytes_cancel b prev (by omega), ih2]

theorem toBlocks_spec (n : Nat) (l : Bytes) (h : l.length = 16 * n) :
    (toBlocks n l).flatten = l ∧ (toBlocks n l).length = n ∧
      ∀ b ∈ toBlocks n l, b.length = 16 := by
  induction n generalizing l with
  | zero =>
    have hl : l = [] := List.length_eq_zero.mp (by simpa using h)
    subst hl
    exact ⟨rfl, rfl, fun b hb => by simp [toBlocks] at hb⟩
  | succ n ih =>
    have hd : (l.drop 16).length = 16 * n := by rw [List.length_drop]; omega
    obtain ⟨i1, i2, i3⟩ := ih (l.drop 16) hd
    refine ⟨?_, ?_, ?_⟩
    · simp only [toBlocks, List.flatten_cons, i1, List.take_append_drop]
    · simp only [toBlocks, List.length_cons, i2]
    · intro b hb
      simp only [toBlocks, List.mem_cons] at hb
      rcases hb with rfl | hb
      · rw [List.length_take]; omega
      · exact i3 b hb

theorem pkcs7Pad_length (p : Bytes) :
    (pkcs7Pad p).length = 16 * ((pkcs7Pad p).length / 16) := by
  have : (pkcs7Pad p).length = p.length + (16 - p.length % 16) := by
    simp [pkcs7Pad]
  omega

theorem pkcs7Unpad_pkcs7Pad (p : Bytes) (bs : Int) : pkcs7Unpad (pkcs7Pad p) bs = .ret p := by
  have hn1 : 1 ≤ 16 - p.length % 16 := by omega
  have hn2 : 16 - p.length % 16 ≤ 16 := by omega
  obtain ⟨k, hk⟩ : ∃ k, 16 - p.length % 16 = k + 1 := ⟨16 - p.length % 16 - 1, by omega⟩
  have hlast : (pkcs7Pad p).getLast? = some (Fin.ofNat (16 - p.length % 16)) := by
    simp only [pkcs7Pad]
    rw [hk, List.replicate_succ', ← List.append_assoc, List.getLast?_append]
    simp
  have hval : ((Fin.ofNat (16 - p.length % 16) : Byte)).val = 16 - p.length % 16 := by
    show (16 - p.length % 16) % 256 = 16 - p.length % 16
    omega
  have hlen : (pkcs7Pad p).length = p.length + (16 - p.length % 16) := by
    simp [pkcs7Pad]
  unfold pkcs7Unpad
  rw [hlast]
  simp only [hval, hlen]
  have h1 : ¬ (((p.length + (16 - p.length % 16) : Nat) : Int) -
      (((16 - p.length % 16 : Nat)) : Int) < 0) := by omega
  have h2 : (((p.length + (16 - p.length % 16) : Nat) : Int) -
      (((16 - p.length % 16 : Nat)) : Int)).toNat = p.length := by omega
  rw [if_neg h1, h2]
  simp [pkcs7Pad]

/-! ## Key derivation and the cipher engine end to end -/

theorem sha1_length (m : Bytes) : (sha1 m).length = 20 := rfl

theorem hmacSha1_length (key m : Bytes) : (hmacSha1 key m).length = 20 := rfl

theorem pbkdf2Iter_length (password : Bytes) (n : Nat) (tu : Bytes × Bytes)
    (h1 : tu.1.length = 20) (h2 : tu.2.length = 20) :
    (pbkdf2Iter password n tu).1.length = 20 := by
  induction n generalizing tu with
  | zero => exact h1
  | succ n ih =>
    simp only [pbkdf2Iter]
    apply ih
    · simp only [xorBytes_length, h1, hmacSha1_length]
      rfl
    · exact hmacSha1_length _ _

theorem pbkdf2Block_length (password salt : Bytes) (iter : Int) (block : Nat) :
    (pbkdf2Block password salt iter block).length = 20 :=
  pbkdf2Iter_length _ _ _ (hmacSha1_length _ _) (hmacSha1_length _ _)

theorem pbkdf2Key_sixteen (password salt : Bytes) (iter : Int) :
    ∃ key, pbkdf2Key password salt iter 16 = .ret key ∧ key.length = 16 := by
  refine ⟨(pbkdf2Block password salt iter 1).take 16, ?_, ?_⟩
  · simp [pbkdf2Key, List.range_succ]
  · rw [List.length_take, pbkdf2Block_length]
    rfl

theorem salt_decode : (hexDecodeString salt).2 = none := by decide

theorem iv_decode : hexDecodeString iv =
    ([242, 125, 92, 153, 39, 114, 107, 206, 254, 117, 16, 177, 189, 211, 209, 55], none) := by
  decide

theorem generateKey_ok (passphrase : Bytes) :
    ∃ key, generateKey salt passphrase keySize iterCount = .ret (key, none) ∧
      key.length = 16 := by
  obtain ⟨key, hk, hlen⟩ := pbkdf2Key_sixteen passphrase (hexDecodeString salt).1 iterCount
  refine ⟨key, ?_, hlen⟩
  have hs : hexDecodeString salt = ((hexDecodeString salt).1, none) :=
    Prod.ext rfl salt_decode
  unfold generateKey
  rw [hs]
  simp only [keySize, hk]

theorem aesNewCipher_sixteen (key : Bytes) (h : key.length = 16) :
    aesNewCipher key = .ok (expandKey key) := by
  simp [aesNewCipher, h]

theorem decryptText_encryptText (p passphrase : Bytes) :
    ∃ ct, encryptText p passphrase = .ret (ct, none) ∧
      decryptText ct passphrase = .ret (p, none) := by
  obtain ⟨key, hk, hlen⟩ := generateKey_ok passphrase
  have hpad := pkcs7Pad_length p
  obtain ⟨t1, t2, t3⟩ := toBlocks_spec ((pkcs7Pad p).length / 16) (pkcs7Pad p) hpad
  have hiv : ([242, 125, 92, 153, 39, 114, 107, 206, 254, 117, 16, 177, 189, 211, 209, 55] :
      Bytes).length = 16 := rfl
  obtain ⟨c1, c2⟩ := cbc_roundtrip (expandKey key)
    (toBlocks ((pkcs7Pad p).length / 16) (pkcs7Pad p)) _ t3 hiv
  refine ⟨base64EncodeToString (cbcEncryptBlocks (expandKey key)
    [242, 125, 92, 153, 39, 114, 107, 206, 254, 117, 16, 177, 189, 211, 209, 55]
    (toBlocks ((pkcs7Pad p).length / 16) (pkcs7Pad p))), ?_, ?_⟩
  · simp [encryptText, encryptAES, hk, iv_decode, aesNewCipher_sixteen key hlen]
  · rw [t2] at c1 c2
    have hmod : ¬ ((cbcEncryptBlocks (expandKey key)
        [242, 125, 92, 153, 39, 114, 107, 206, 254, 117, 16, 177, 189, 211, 209, 55]
        (toBlocks ((pkcs7Pad p).length / 16) (pkcs7Pad p))).length % 16 ≠ 0) := by
      rw [c1]; omega
    have hdiv : (cbcEncryptBlocks (expandKey key)
        [242, 125, 92, 153, 39, 114, 107, 206, 254, 117, 16, 177, 189, 211, 209, 55]
        (toBlocks ((pkcs7Pad p).length / 16) (pkcs7Pad p))).length / 16 =
        (pkcs7Pad p).length / 16 := by
      rw [c1]; omega
    simp only [decryptText, decryptAES, hk, iv_decode, base64_roundtrip,
      aesNewCipher_sixteen key hlen, newCBCDecrypter, cryptBlocks, hmod, if_false, hdiv]
    simp only [hiv, ne_eq, not_true_eq_false, if_false]
    rw [c2, t1, pkcs7Unpad_pkcs7Pad]

/-- The function `decryptAES` after a successful key derivation. -/
theorem decryptAES_of_key (s i passphrase ciphertext key : Bytes) (ks it : Int)
    (h : generateKey s passphrase ks it = .ret (key, none)) :
    decryptAES s i passphrase ciphertext ks it =
      match hexDecodeString i with
      | (_, some err) => .ret ([], some err)
      | (ivBytes, none) =>
        match base64DecodeString ciphertext with
        | (_, some err) => .ret ([], some err)
        | (ciphertextBytes, none) =>
          match aesNewCipher key with
          | .error err => .ret ([], some err)
          | .ok block =>
            match newCBCDecrypter block ivBytes with
            | .panic p => .panic p
            | .ret mode =>
              match cryptBlocks mode ciphertextBytes with
              | .panic p => .panic p
              | .ret plainBytes =>
                match pkcs7Unpad plainBytes 16 with
                | .panic p => .panic p
                | .ret plain => .ret (plain, none) := by
  unfold decryptAES
  rw [h]

/-- The model of the encrypt direction after a successful key derivation. -/
theorem encryptAES_of_key (s i passphrase plaintext key : Bytes) (ks it : Int)
    (h : generateKey s passphrase ks it = .ret (key, none)) :
    encryptAES s i passphrase plaintext ks it =
      match hexDecodeString i with
      | (_, some err) => .ret ([], some err)
      | (ivBytes, none) =>
        match aesNewCipher key with
        | .error err => .ret ([], some err)
        | .ok block =>
          if ivBytes.length ≠ 16 then .panic .cbcIVLength
          else
            .ret (base64EncodeToString (cbcEncryptBlocks block ivBytes
              (toBlocks ((pkcs7Pad plaintext).length / 16) (pkcs7Pad plaintext))), none) := by
  unfold encryptAES
  rw [h]

set_option maxRecDepth 100000 in
theorem generateKey_known :
    generateKey salt (ascii "HjVSaWQaJcBxegnjiODm3vs2a") keySize iterCount =
      .ret ([2, 52, 97, 51, 8, 6, 244, 143, 82, 112, 61, 234, 51, 51, 39, 209], none) := by
  decide!

set_option maxRecDepth 100000 in
theorem generateKey_a :
    generateKey salt (ascii "a") keySize iterCount =
      .ret ([97, 121, 182, 57, 114, 18, 200, 196, 20, 142, 27, 161, 137, 57, 79, 22], none) := by
  decide!

set_option maxRecDepth 100000 in
theorem decryptText_known :
    decryptText (ascii "qb/ItbJgpIk88xrKTjGpKQ==") (ascii "HjVSaWQaJcBxegnjiODm3vs2a") =
      .ret (ascii "{}", none) :=
  (decryptAES_of_key _ _ _ _ _ _ _ generateKey_known).trans (by decide!)

set_option maxRecDepth 100000 in
theorem decryptText_of_empty :
    decryptText (ascii "1s9ZisRffR6yGXm8fX0vyw==") (ascii "a") = .ret ([], none) :=
  (decryptAES_of_key _ _ _ _ _ _ _ generateKey_a).trans (by decide!)

set_option maxRecDepth 100000 in
theorem encryptText_of_empty :
    encryptText [] (ascii "a") = .ret (ascii "1s9ZisRffR6yGXm8fX0vyw==", none) :=
  (encryptAES_of_key _ _ _ _ _ _ _ generateKey_a).trans (by decide!)

set_option maxRecDepth 100000 in
theorem decryptText_fault :
    decryptText (ascii "qb/ItbJgpIk88xrKTjGpKQ==") (ascii "a") = .panic .sliceBounds :=
  (decryptAES_of_key _ _ _ _ _ _ _ generateKey_a).trans (by decide!)

theorem knownVector_split :
    knownVector = ascii "qb/ItbJgpIk88xrKTjGpKQ==" ++ markerStr ++
      ascii "HjVSaWQaJcBxegnjiODm3vs2a" := by
  decide

/-! ## The result of `strings.LastIndex`, read backwards -/

theorem lastIndexFrom_spec (s sep : Bytes) (n : Nat) :
    (lastIndexFrom s sep n = -1 ∧ ∀ j, j ≤ n → sep.isPrefixOf (s.drop j) = false) ∨
    ∃ k : Nat, k ≤ n ∧ lastIndexFrom s sep n = (k : Int) ∧ sep.isPrefixOf (s.drop k) = true ∧
      ∀ j, k < j → j ≤ n → sep.isPrefixOf (s.drop j) = false := by
  induction n with
  | zero =>
    cases h : sep.isPrefixOf s
    · left
      refine ⟨by simp [lastIndexFrom, h], ?_⟩
      intro j hj
      have : j = 0 := Nat.le_zero.mp hj
      subst this
      simpa using h
    · right
      refine ⟨0, Nat.le_refl 0, by simp [lastIndexFrom, h], by simpa using h, ?_⟩
      intro j h1 h2
      omega
  | succ n ih =>
    cases h : sep.isPrefixOf (s.drop (n + 1))
    · rcases ih with ⟨h1, h2⟩ | ⟨k, hk, h1, h2, h3⟩
      · left
        refine ⟨by simp only [lastIndexFrom, h]; exact h1, ?_⟩
        intro j hj
        by_cases hjn : j = n + 1
        · subst hjn; exact h
        · exact h2 j (by omega)
      · right
        refine ⟨k, Nat.le_succ_of_le hk, by simp only [lastIndexFrom, h]; exact h1, h2, ?_⟩
        intro j hj1 hj2
        by_cases hjn : j = n + 1
        · subst hjn; exact h
        · exact h3 j hj1 (by omega)
    · right
      refine ⟨n + 1, Nat.le_refl _, by simp [lastIndexFrom, h], h, ?_⟩
      intro j h1 h2
      omega

theorem prefix_drop_of_infix {s sep : Bytes} (h : sep <:+: s) :
    ∃ j, j + sep.length ≤ s.length ∧ sep.isPrefixOf (s.drop j) = true := by
  obtain ⟨a, b, hab⟩ := h
  refine ⟨a.length, ?_, ?_⟩
  · rw [← hab]; simp only [List.length_append]; omega
  · rw [List.isPrefixOf_iff_prefix, ← hab, List.append_assoc, List.drop_left]
    exact List.prefix_append _ _

theorem stringsLastIndex_spec (s sep : Bytes) (h : sep <:+: s) :
    ∃ i : Nat, stringsLastIndex s sep = (i : Int) ∧ i + sep.length ≤ s.length ∧
      sep.isPrefixOf (s.drop i) = true ∧
      ∀ j, i < j → j + sep.length ≤ s.length → sep.isPrefixOf (s.drop j) = false := by
  obtain ⟨j0, hj0, hm0⟩ := prefix_drop_of_infix h
  have hlen : ¬ sep.length > s.length := by omega
  unfold stringsLastIndex
  rw [if_neg hlen]
  rcases lastIndexFrom_spec s sep (s.length - sep.length) with ⟨_, h2⟩ | ⟨k, hk, h1, h2, h3⟩
  · have := h2 j0 (by omega)
    rw [hm0] at this
    cases this
  · exact ⟨k, h1, by omega, h2, fun j hj1 hj2 => h3 j hj1 (by omega)⟩

/-! ## The outcomes of the decode path -/

theorem afterDecrypt_ne_empty (r : Run (Bytes × Option GoError)) :
    afterDecrypt r ≠ .ret ([], none) := by
  intro h
  match r, h with
  | .panic p, h => simp [afterDecrypt] at h
  | .ret (_, some err), h => simp [afterDecrypt] at h
  | .ret (t, none), h =>
    by_cases ht : t = []
    · simp [afterDecrypt, ht] at h
    · simp [afterDecrypt, ht] at h

theorem afterDecrypt_error (r : Run (Bytes × Option GoError)) (t : Bytes) (e : GoError)
    (h : afterDecrypt r = .ret (t, some e)) :
    t = [] ∧ (e = .emptyDecrypt ∨ ∃ t0, r = .ret (t0, some e)) := by
  match r, h with
  | .panic p, h => simp [afterDecrypt] at h
  | .ret (t0, some err), h =>
    simp only [afterDecrypt, Run.ret.injEq, Prod.mk.injEq, Option.some.injEq] at h
    exact ⟨h.1.symm, Or.inr ⟨t0, by rw [h.2]⟩⟩
  | .ret (t0, none), h =>
    by_cases ht : t0 = []
    · simp only [afterDecrypt, ht, if_true, Run.ret.injEq, Prod.mk.injEq,
        Option.some.injEq] at h
      exact ⟨h.1.symm, Or.inl h.2.symm⟩
    · simp [afterDecrypt, ht] at h

theorem decode_no_marker (s : Bytes) (h : ¬ markerStr <:+: s) :
    decryptEncodedJson s = .ret ([], none) := by
  unfold decryptEncodedJson
  rw [marker_decode]
  simp only [stringsLastIndex_none s markerStr h, if_true]

theorem decode_with_marker (s : Bytes) (h : markerStr <:+: s) :
    ∃ i : Nat, stringsLastIndex s markerStr = (i : Int) ∧ i + markerStr.length ≤ s.length ∧
      s.take i ++ markerStr ++ s.drop (i + markerStr.length) = s ∧
      ¬ markerStr <:+: s.drop (i + markerStr.length) ∧
      decryptEncodedJson s =
        if s.drop (i + markerStr.length) ≠ [] then
          afterDecrypt (decryptText (s.take i) (s.drop (i + markerStr.length)))
        else .ret ([], none) := by
  obtain ⟨i, hi, hlen, hm, hlast⟩ := stringsLastIndex_spec s markerStr h
  refine ⟨i, hi, hlen, ?_, ?_, decryptEncodedJson_at s i hi hlen⟩
  · rw [List.isPrefixOf_iff_prefix] at hm
    obtain ⟨r, hr⟩ := hm
    have hr2 : r = s.drop (i + markerStr.length) := by
      have := congrArg (List.drop markerStr.length) hr
      rw [List.drop_left, List.drop_drop] at this
      rw [this, Nat.add_comm]
    rw [List.append_assoc, ← hr2, hr, List.take_append_drop]
  · intro hin
    obtain ⟨j, hj, hjm⟩ := prefix_drop_of_infix hin
    rw [List.drop_drop] at hjm
    rw [List.length_drop] at hj
    have hno := hlast (i + markerStr.length + j) (by rw [markerStr_length]; omega) (by omega)
    rw [hno] at hjm
    cases hjm

/-- The function `decryptText` for an arbitrary passphrase: the key derivation
and the decoding of the IV succeed, and what remains is the decoding of the
ciphertext, the CBC decryption and the unpadding. -/
theorem decryptText_tail (c p : Bytes) :
    ∃ key, generateKey salt p keySize iterCount = .ret (key, none) ∧ key.length = 16 ∧
      decryptText c p =
        match base64DecodeString c with
        | (_, some err) => .ret ([], some err)
        | (ciphertextBytes, none) =>
          match cryptBlocks
            { block := expandKey key
              iv := [242, 125, 92, 153, 39, 114, 107, 206, 254, 117, 16, 177, 189, 211, 209, 55] }
            ciphertextBytes with
          | .panic q => .panic q
          | .ret plainBytes =>
            match pkcs7Unpad plainBytes 16 with
            | .panic q => .panic q
            | .ret plain => .ret (plain, none) := by
  obtain ⟨key, hk, hlen⟩ := generateKey_ok p
  refine ⟨key, hk, hlen, ?_⟩
  unfold decryptText
  rw [decryptAES_of_key _ _ _ _ _ _ _ hk, iv_decode]
  simp only [aesNewCipher_sixteen key hlen, newCBCDecrypter, List.length_cons, List.length_nil]
  rfl

theorem b64Finish_error (rest : Bytes) (si : Nat) (q : List Nat) (e : GoError)
    (h : (b64Finish rest si q).2 = some e) : ∃ n, e = .base64Corrupt n := by
  unfold b64Finish at h
  dsimp only at h
  split at h
  · cases h
  · exact ⟨_, (Option.some.inj h).symm⟩

theorem b64Decode_error (s : Bytes) : ∀ (si : Nat) (q : List Nat) (e : GoError),
    (b64Decode s si q).2 = some e → ∃ n, e = .base64Corrupt n := by
  induction s with
  | nil =>
    intro si q e h
    cases q with
    | nil => simp [b64Decode] at h
    | cons a t => exact ⟨_, by simpa [b64Decode] using h.symm⟩
  | cons c rest ih =>
    intro si q e h
    unfold b64Decode at h
    split at h
    · split at h
      · exact ih _ _ e h
      · exact ih _ _ e h
    · split at h
      · exact ih _ _ e h
      · split at h
        · exact ⟨_, (Option.some.inj h).symm⟩
        · split at h
          · exact ⟨_, (Option.some.inj h).symm⟩
          · split at h
            · dsimp only at h
              split at h
              · exact ⟨_, (Option.some.inj h).symm⟩
              · split at h
                · exact ⟨_, (Option.some.inj h).symm⟩
                · exact b64Finish_error _ _ _ e h
            · exact b64Finish_error _ _ _ e h

theorem decryptText_error (c p t : Bytes) (e : GoError)
    (h : decryptText c p = .ret (t, some e)) :
    t = [] ∧ ∃ n, e = .base64Corrupt n := by
  obtain ⟨key, _, _, htail⟩ := decryptText_tail c p
  rw [htail] at h
  split at h
  · rename_i err hb
    simp only [Run.ret.injEq, Prod.mk.injEq, Option.some.injEq] at h
    have hb2 : (base64DecodeString c).2 = some e := by rw [hb, h.2]
    exact ⟨h.1.symm, b64Decode_error c 0 [] e hb2⟩
  · split at h
    · cases h
    · split at h
      · cases h
      · simp at h

theorem decode_error (s t : Bytes) (e : GoError)
    (h : decryptEncodedJson s = .ret (t, some e)) :
    t = [] ∧ (e = .emptyDecrypt ∨ ∃ n, e = .base64Corrupt n) := by
  by_cases hm : markerStr <:+: s
  · obtain ⟨i, _, _, _, _, hd⟩ := decode_with_marker s hm
    rw [hd] at h
    split at h
    · obtain ⟨ht, he⟩ := afterDecrypt_error _ t e h
      refine ⟨ht, ?_⟩
      rcases he with he | ⟨t0, he⟩
      · exact Or.inl he
      · exact Or.inr (decryptText_error _ _ t0 e he).2
    · simp at h
  · rw [decode_no_marker s hm] at h
    simp at h

/-! ## What `StdEncoding` accepts -/

set_option maxRecDepth 100000 in
theorem alphabet_not_newline : ∀ c : Byte, isAlphabet c = true → isNewline c = false := by
  decide!

theorem stripNewlines_cons_keep (c : Byte) (rest : Bytes) (h : isNewline c = false) :
    stripNewlines (c :: rest) = c :: stripNewlines rest := by
  simp [stripNewlines, h]

theorem stripNewlines_cons_drop (c : Byte) (rest : Bytes) (h : isNewline c = true) :
    stripNewlines (c :: rest) = stripNewlines rest := by
  simp [stripNewlines, h]

theorem stripNewlines_skipNewlines (l : Bytes) :
    stripNewlines (skipNewlines l) = stripNewlines l := by
  induction l with
  | nil => rfl
  | cons c rest ih =>
    cases hc : isNewline c
    · simp [skipNewlines, hc]
    · simp only [skipNewlines, hc, if_true, ih, stripNewlines_cons_drop c rest hc]

theorem stripNewlines_of_skip_nil (l : Bytes) (h : skipNewlines l = []) :
    stripNewlines l = [] := by
  rw [← stripNewlines_skipNewlines, h]
  rfl

theorem b64Finish_none (rest : Bytes) (si : Nat) (q : List Nat)
    (h : (b64Finish rest si q).2 = none) : skipNewlines rest = [] := by
  unfold b64Finish at h
  dsimp only at h
  split at h
  · assumption
  · cases h

theorem list_three {α : Type} (l : List α) (h : l.length = 3) : ∃ a b c, l = [a, b, c] := by
  obtain ⟨a, t0, rfl, h0⟩ := cons_of_length l h
  obtain ⟨b, t1, rfl, h1⟩ := cons_of_length t0 h0
  obtain ⟨c, t2, rfl, h2⟩ := cons_of_length t1 h1
  exact ⟨a, b, c, by rw [List.length_eq_zero.mp h2]⟩

theorem list_two {α : Type} (l : List α) (h : l.length = 2) : ∃ a b, l = [a, b] := by
  obtain ⟨a, t0, rfl, h0⟩ := cons_of_length l h
  obtain ⟨b, t1, rfl, h1⟩ := cons_of_length t0 h0
  exact ⟨a, b, by rw [List.length_eq_zero.mp h1]⟩

theorem b64Decode_accepts (s : Bytes) : ∀ (si : Nat) (q : List Nat) (pre : Bytes),
    pre.length = q.length → q.length ≤ 3 → (∀ x ∈ pre, isAlphabet x = true) →
    (b64Decode s si q).2 = none → wellFormedBase64 (pre ++ stripNewlines s) = true := by
  induction s with
  | nil =>
    intro si q pre hlen _ _ h
    cases q with
    | nil =>
      have : pre = [] := List.length_eq_zero.mp (by simpa using hlen)
      subst this
      rfl
    | cons a t => simp [b64Decode] at h
  | cons c rest ih =>
    intro si q pre hlen hq hpre h
    unfold b64Decode at h
    split at h
    · rename_i v hv
      have hc : isAlphabet c = true := by simp [isAlphabet, hv]
      have hnl := alphabet_not_newline c hc
      rw [stripNewlines_cons_keep c rest hnl]
      split at h
      · rename_i h3
        have hrest := ih (si + 1) [] [] rfl (by simp) (by simp) h
        obtain ⟨x, y, z, rfl⟩ := list_three pre (by omega)
        have hx := hpre x (by simp)
        have hy := hpre y (by simp)
        have hz := hpre z (by simp)
        simp only [List.nil_append] at hrest
        simp [wellFormedBase64, hx, hy, hz, hc, hrest]
      · rename_i h3
        have := ih (si + 1) (q ++ [v]) (pre ++ [c]) (by simp [hlen]) (by simp; omega)
          (by
            intro x hx
            rcases List.mem_append.mp hx with hx | hx
            · exact hpre x hx
            · rw [List.mem_singleton.mp hx]; exact hc) h
        simpa [List.append_assoc] using this
    · rename_i hv
      split at h
      · rename_i hnl
        rw [stripNewlines_cons_drop c rest hnl]
        exact ih (si + 1) q pre hlen hq hpre h
      · rename_i hnl
        have hnl2 : isNewline c = false := by simpa using hnl
        split at h
        · cases h
        · rename_i hpad
          have hcp : c = padChar := by simpa using hpad
          subst hcp
          rw [stripNewlines_cons_keep padChar rest hnl2]
          split at h
          · cases h
          · split at h
            · rename_i h2
              dsimp only at h
              split at h
              · cases h
              · rename_i c2 r2 hr
                split at h
                · cases h
                · rename_i hc2
                  have hc2p : c2 = padChar := by simpa using hc2
                  subst hc2p
                  have hr2 := stripNewlines_of_skip_nil r2 (b64Finish_none _ _ _ h)
                  have hs : stripNewlines rest = [padChar] := by
                    rw [← stripNewlines_skipNewlines, hr,
                      stripNewlines_cons_keep padChar r2 hnl2, hr2]
                  obtain ⟨x, y, rfl⟩ := list_two pre (by omega)
                  have hx := hpre x (by simp)
                  have hy := hpre y (by simp)
                  rw [hs]
                  simp [wellFormedBase64, hx, hy]
            · have hs := stripNewlines_of_skip_nil rest (b64Finish_none _ _ _ h)
              obtain ⟨x, y, z, rfl⟩ := list_three pre (by omega)
              have hx := hpre x (by simp)
              have hy := hpre y (by simp)
              have hz := hpre z (by simp)
              rw [hs]
              simp [wellFormedBase64, hx, hy, hz]

/-- A ciphertext that is not well-formed once its line breaks are removed
is rejected by `base64.StdEncoding.DecodeString`. -/
theorem base64_rejects (c : Bytes) (h : wellFormedBase64 (stripNewlines c) = false) :
    ∃ n, (base64DecodeString c).2 = some (.base64Corrupt n) := by
  cases hd : (base64DecodeString c).2 with
  | none =>
    have := b64Decode_accepts c 0 [] [] rfl (by simp) (by simp) hd
    simp only [List.nil_append] at this
    rw [this] at h
    cases h
  | some e =>
    obtain ⟨n, hn⟩ := b64Decode_error c 0 [] e hd
    exact ⟨n, by rw [hn]⟩

theorem decryptText_bad_base64 (c p : Bytes) (e : GoError)
    (hb : (base64DecodeString c).2 = some e) : decryptText c p = .ret ([], some e) := by
  obtain ⟨key, _, _, htail⟩ := decryptText_tail c p
  rw [htail]
  split
  · rename_i err hd
    rw [hd] at hb
    simp only [Option.some.injEq] at hb
    rw [hb]
  · rename_i hd
    rw [hd] at hb
    cases hb

theorem decryptText_not_full_blocks (c p ct : Bytes) (hb : base64DecodeString c = (ct, none))
    (hl : ct.length % 16 ≠ 0) : decryptText c p = .panic .cbcNotFullBlocks := by
  obtain ⟨key, _, _, htail⟩ := decryptText_tail c p
  rw [htail, hb]
  simp only [cryptBlocks]
  rw [if_pos hl]

theorem decryptText_empty_ciphertext (p : Bytes) :
    decryptText [] p = .panic .indexOutOfRange := by
  obtain ⟨key, _, _, htail⟩ := decryptText_tail [] p
  rw [htail]
  rfl

/-! ## Further facts used by the claims -/

theorem slices_at (s : Bytes) (i : Nat) (hlen : i + markerStr.length ≤ s.length) :
    sliceTo s (i : Int) = .ret (s.take i) ∧
    sliceFrom s ((i : Int) + (markerStr.length : Int)) = .ret (s.drop (i + markerStr.length)) := by
  have h2 : ¬ (((i : Int) + (markerStr.length : Int) < 0) ∨
      ((i : Int) + (markerStr.length : Int) > (s.length : Int))) := by omega
  have h3 : ¬ (((i : Int) < 0) ∨ ((i : Int) > (s.length : Int))) := by omega
  have h4 : ((i : Int) + (markerStr.length : Int)).toNat = i + markerStr.length := by omega
  simp only [sliceFrom, sliceTo, h2, h3, h4, if_false, Int.toNat_ofNat, and_self]

set_option maxRecDepth 100000 in
theorem decryptText_line_break :
    decryptText (ascii "qb/ItbJgpIk\n88xrKTjGpKQ==") (ascii "HjVSaWQaJcBxegnjiODm3vs2a") =
      .ret (ascii "{}", none) :=
  (decryptAES_of_key _ _ _ _ _ _ _ generateKey_known).trans (by decide!)

theorem campiLookup_none (campus : Bytes)
    (h : campus ∉ [ascii "sm", ascii "um", ascii "gl", ascii "po", ascii "mc"]) :
    campiLookup campus = none := by
  simp only [List.mem_cons, List.mem_singleton, not_or, List.not_mem_nil, not_false_eq_true,
    and_true] at h
  obtain ⟨h1, h2, h3, h4, h5⟩ := h
  simp only [campiLookup, Campi, List.lookup, beq_eq_false_iff_ne.mpr h1,
    beq_eq_false_iff_ne.mpr h2, beq_eq_false_iff_ne.mpr h3, beq_eq_false_iff_ne.mpr h4,
    beq_eq_false_iff_ne.mpr h5]

/-! ## The claims of the specification -/

/-- C1: an envelope `c ‖ marker ‖ p`, with `p` non-empty and free of the marker
token, is split at the last marker: `strings.LastIndex` returns the length of
`c`, the two slices are exactly `c` and `p`, and `decryptEncodedJson` is what
follows the call `decryptText c p`, also when `c` contains the marker. -/
theorem C1_split_at_last_marker (c p : Bytes) (hne : p ≠ []) (hp : ¬ markerStr <:+: p) :
    stringsLastIndex (c ++ markerStr ++ p) markerStr = (c.length : Int) ∧
    sliceTo (c ++ markerStr ++ p) (c.length : Int) = .ret c ∧
    sliceFrom (c ++ markerStr ++ p) ((c.length : Int) + (markerStr.length : Int)) = .ret p ∧
    decryptEncodedJson (c ++ markerStr ++ p) = afterDecrypt (decryptText c p) := by
  have hi := marker_lastIndex c p hp
  have hdrop : (c ++ markerStr ++ p).drop (c.length + markerStr.length) = p := by
    rw [← List.length_append, List.drop_left]
  have htake : (c ++ markerStr ++ p).take c.length = c := by
    rw [List.append_assoc, List.take_left]
  refine ⟨hi, ?_, ?_, ?_⟩
  · have h : ¬ (((c.length : Int) < 0) ∨
        ((c.length : Int) > ((c ++ markerStr ++ p).length : Int))) := by
      simp only [List.length_append, Nat.cast_add]
      omega
    simp only [sliceTo, h, if_false, Int.toNat_ofNat, htake]
  · have h : ¬ ((((c.length : Int) + (markerStr.length : Int)) < 0) ∨
        (((c.length : Int) + (markerStr.length : Int)) >
          ((c ++ markerStr ++ p).length : Int))) := by
      simp only [List.length_append, Nat.cast_add]
      omega
    have h4 : ((c.length : Int) + (markerStr.length : Int)).toNat =
        c.length + markerStr.length := by omega
    simp only [sliceFrom, h, if_false, h4, hdrop]
  · rw [decryptEncodedJson_at _ c.length hi (by simp only [List.length_append]; omega),
      hdrop, htake, if_pos hne]

/-- An instance of C1 in which the ciphertext part itself contains the marker. -/
theorem C1_split_at_last_marker_witness :
    stringsLastIndex (markerStr ++ markerStr ++ ascii "k") markerStr =
      ((markerStr.length : Nat) : Int) ∧
    sliceTo (markerStr ++ markerStr ++ ascii "k") (markerStr.length : Int) = .ret markerStr ∧
    sliceFrom (markerStr ++ markerStr ++ ascii "k")
      ((markerStr.length : Int) + (markerStr.length : Int)) = .ret (ascii "k") ∧
    decryptEncodedJson (markerStr ++ markerStr ++ ascii "k") =
      afterDecrypt (decryptText markerStr (ascii "k")) :=
  C1_split_at_last_marker markerStr (ascii "k") (by decide) (by decide)

/-- C2: an envelope in which the marker token does not occur decodes to the
empty string with a nil error, and so does `Descriptografar`; `decryptText` is
not reached. -/
theorem C2_no_marker (s : Bytes) (h : ¬ markerStr <:+: s) :
    decryptEncodedJson s = .ret ([], none) ∧ Descriptografar s = .ret ([], none) := by
  have hd : decryptEncodedJson s = .ret ([], none) := by
    unfold decryptEncodedJson
    rw [marker_decode]
    simp only [stringsLastIndex_none s markerStr h, if_true]
  exact ⟨hd, hd⟩

/-- An instance of C2: a base64 ciphertext with no marker after it. -/
theorem C2_no_marker_witness :
    decryptEncodedJson (ascii "qb/ItbJgpIk88xrKTjGpKQ==") = .ret ([], none) ∧
    Descriptografar (ascii "qb/ItbJgpIk88xrKTjGpKQ==") = .ret ([], none) :=
  C2_no_marker (ascii "qb/ItbJgpIk88xrKTjGpKQ==") (by decide)

/-- C3: an envelope that ends with the marker token decodes to the empty
string with a nil error, whatever precedes the marker; so does the marker
token alone. -/
theorem C3_empty_passphrase (c : Bytes) :
    decryptEncodedJson (c ++ markerStr) = .ret ([], none) ∧
    decryptEncodedJson markerStr = .ret ([], none) := by
  have key : ∀ c : Bytes, decryptEncodedJson (c ++ markerStr) = .ret ([], none) := by
    intro c
    have hi : stringsLastIndex (c ++ markerStr) markerStr = (c.length : Int) := by
      have := marker_lastIndex c [] (by rw [markerStr_eq]; decide)
      simpa using this
    rw [decryptEncodedJson_at _ c.length hi (by simp)]
    have hdrop : (c ++ markerStr).drop (c.length + markerStr.length) = [] := by
      rw [← List.length_append, List.drop_length]
    simp [hdrop]
  exact ⟨key c, by simpa using key []⟩

/-- C4: when the marker is found, the passphrase part is not empty and
`decryptText` returns the empty string with a nil error, `decryptEncodedJson`
returns the error "decryptor returned an empty string". -/
theorem C4_empty_decryption_is_error (s : Bytes) (i : Nat)
    (hi : stringsLastIndex s markerStr = (i : Int))
    (hpass : s.drop (i + markerStr.length) ≠ [])
    (hdec : decryptText (s.take i) (s.drop (i + markerStr.length)) = .ret ([], none)) :
    decryptEncodedJson s = .ret ([], some .emptyDecrypt) ∧
    decryptEncodedJson s ≠ .ret ([], none) := by
  have hlen : i + markerStr.length ≤ s.length := by
    by_contra hcon
    exact hpass (List.drop_eq_nil_of_le (by omega))
  have h : decryptEncodedJson s = .ret ([], some .emptyDecrypt) := by
    rw [decryptEncodedJson_at s i hi hlen, if_pos hpass, hdec]
    rfl
  refine ⟨h, ?_⟩
  rw [h]
  intro hcon
  cases hcon

/-- A witness of C4: the envelope that the encoder produces for the empty
plaintext under the passphrase `a`. -/
theorem C4_empty_decryption_is_error_witness :
    decryptEncodedJson (ascii "1s9ZisRffR6yGXm8fX0vyw==G2b1UFYMYjNViPZY6bSpvHnNYxHa") =
      .ret ([], some .emptyDecrypt) ∧
    decryptEncodedJson (ascii "1s9ZisRffR6yGXm8fX0vyw==G2b1UFYMYjNViPZY6bSpvHnNYxHa") ≠
      .ret ([], none) :=
  C4_empty_decryption_is_error (ascii "1s9ZisRffR6yGXm8fX0vyw==G2b1UFYMYjNViPZY6bSpvHnNYxHa") 24
    (by decide) (by decide)
    (by
      rw [show (ascii "1s9ZisRffR6yGXm8fX0vyw==G2b1UFYMYjNViPZY6bSpvHnNYxHa").take 24 =
          ascii "1s9ZisRffR6yGXm8fX0vyw==" from by decide,
        show (ascii "1s9ZisRffR6yGXm8fX0vyw==G2b1UFYMYjNViPZY6bSpvHnNYxHa").drop
          (24 + markerStr.length) = ascii "a" from by decide]
      exact decryptText_of_empty)

/-- C5: when the marker is found, the passphrase part is not empty and
`decryptText` returns a non-empty string with a nil error, `decryptEncodedJson`
returns that string unchanged with a nil error. -/
theorem C5_plaintext_unchanged (s : Bytes) (i : Nat) (t : Bytes)
    (hi : stringsLastIndex s markerStr = (i : Int))
    (hpass : s.drop (i + markerStr.length) ≠ [])
    (hdec : decryptText (s.take i) (s.drop (i + markerStr.length)) = .ret (t, none))
    (ht : t ≠ []) :
    decryptEncodedJson s = .ret (t, none) := by
  have hlen : i + markerStr.length ≤ s.length := by
    by_contra hcon
    exact hpass (List.drop_eq_nil_of_le (by omega))
  rw [decryptEncodedJson_at s i hi hlen, if_pos hpass, hdec]
  simp only [afterDecrypt, ht, if_false]

/-- A witness of C5: the input of `TestDescriptografar`. -/
theorem C5_plaintext_unchanged_witness :
    decryptEncodedJson knownVector = .ret (ascii "{}", none) :=
  C5_plaintext_unchanged knownVector 24 (ascii "{}") (by decide) (by decide)
    (by
      rw [show knownVector.take 24 = ascii "qb/ItbJgpIk88xrKTjGpKQ==" from by decide,
        show knownVector.drop (24 + markerStr.length) = ascii "HjVSaWQaJcBxegnjiODm3vs2a" from
          by decide]
      exact decryptText_known)
    (by decide)

/-- C6, as stated, fails for the empty plaintext: the encoder turns it into
an envelope, and `Descriptografar` answers that envelope with the error
"decryptor returned an empty string" instead of the empty string. -/
theorem C6_roundtrip_fails_on_empty :
    Criptografar (ascii "a") [] =
      .ret (ascii "1s9ZisRffR6yGXm8fX0vyw==G2b1UFYMYjNViPZY6bSpvHnNYxHa", none) ∧
    Descriptografar (ascii "1s9ZisRffR6yGXm8fX0vyw==G2b1UFYMYjNViPZY6bSpvHnNYxHa") =
      .ret ([], some .emptyDecrypt) := by
  have hsplit : ascii "1s9ZisRffR6yGXm8fX0vyw==G2b1UFYMYjNViPZY6bSpvHnNYxHa" =
      ascii "1s9ZisRffR6yGXm8fX0vyw==" ++ markerStr ++ ascii "a" := by decide
  constructor
  · simp only [Criptografar, criptografarRequestParams, encryptText_of_empty, hsplit]
  · show decryptEncodedJson _ = _
    rw [hsplit, envelope_split _ _ (by decide) (by decide), decryptText_of_empty]
    rfl

/-- C6 amended: for a non-empty plaintext `p` and a passphrase that is not
empty and does not contain the marker token, the encoder returns an envelope
with a nil error and `Descriptografar` returns `p` for it with a nil error. -/
theorem C6_roundtrip_nonempty (passphrase p : Bytes) (hpass : passphrase ≠ [])
    (hm : ¬ markerStr <:+: passphrase) (hp : p ≠ []) :
    ∃ e, Criptografar passphrase p = .ret (e, none) ∧ Descriptografar e = .ret (p, none) := by
  obtain ⟨ct, henc, hdec⟩ := decryptText_encryptText p passphrase
  refine ⟨ct ++ markerStr ++ passphrase, ?_, ?_⟩
  · simp only [Criptografar, criptografarRequestParams, henc]
  · show decryptEncodedJson _ = _
    rw [envelope_split ct passphrase hpass hm, hdec]
    simp only [afterDecrypt, hp, if_false]

/-- A witness of the amended C6: the two bytes of a multi-byte UTF-8 letter
under the passphrase of the known vector. -/
theorem C6_roundtrip_nonempty_witness :
    ∃ e, Criptografar (ascii "HjVSaWQaJcBxegnjiODm3vs2a") [195, 169] = .ret (e, none) ∧
      Descriptografar e = .ret ([195, 169], none) :=
  C6_roundtrip_nonempty (ascii "HjVSaWQaJcBxegnjiODm3vs2a") [195, 169] (by decide) (by decide)
    (by decide)

/-- C7: `Descriptografar` applied to the input of `TestDescriptografar` returns
a nil error and the non-empty plaintext `{}`. -/
theorem C7_known_vector :
    Descriptografar knownVector = .ret (ascii "{}", none) ∧ ascii "{}" ≠ [] := by
  constructor
  · show decryptEncodedJson _ = _
    rw [knownVector_split, envelope_split _ _ (by decide) (by decide), decryptText_known]
    rfl
  · decide

/-- C8, as stated, fails: the input of `TestDescriptografar` is not the
ciphertext, the marker token and `NYxHHjVSaWQaJcBxegnjiODm3vs2a` in a row, and
the passphrase part that `decryptEncodedJson` cuts is not that string. -/
theorem C8_passphrase_is_not_as_stated :
    knownVector ≠ ascii "qb/ItbJgpIk88xrKTjGpKQ==" ++ markerStr ++
      ascii "NYxHHjVSaWQaJcBxegnjiODm3vs2a" ∧
    sliceFrom knownVector (stringsLastIndex knownVector markerStr + (markerStr.length : Int)) ≠
      .ret (ascii "NYxHHjVSaWQaJcBxegnjiODm3vs2a") := by
  constructor <;> decide

/-- C8 amended: the input of `TestDescriptografar` is the ciphertext
`qb/ItbJgpIk88xrKTjGpKQ==`, the 27-byte marker token and the passphrase
`HjVSaWQaJcBxegnjiODm3vs2a`; `decryptEncodedJson` finds the marker at offset 24,
cuts exactly these two parts and hands them to `decryptText`, which derives the
key from that passphrase. -/
theorem C8_known_vector_parts :
    knownVector = ascii "qb/ItbJgpIk88xrKTjGpKQ==" ++ markerStr ++
      ascii "HjVSaWQaJcBxegnjiODm3vs2a" ∧
    stringsLastIndex knownVector markerStr = 24 ∧
    sliceTo knownVector (stringsLastIndex knownVector markerStr) =
      .ret (ascii "qb/ItbJgpIk88xrKTjGpKQ==") ∧
    sliceFrom knownVector (stringsLastIndex knownVector markerStr + (markerStr.length : Int)) =
      .ret (ascii "HjVSaWQaJcBxegnjiODm3vs2a") ∧
    decryptEncodedJson knownVector =
      afterDecrypt (decryptText (ascii "qb/ItbJgpIk88xrKTjGpKQ==")
        (ascii "HjVSaWQaJcBxegnjiODm3vs2a")) ∧
    generateKey salt (ascii "HjVSaWQaJcBxegnjiODm3vs2a") keySize iterCount =
      .ret ([2, 52, 97, 51, 8, 6, 244, 143, 82, 112, 61, 234, 51, 51, 39, 209], none) := by
  refine ⟨knownVector_split, by decide, by decide, by decide, ?_, generateKey_known⟩
  rw [knownVector_split, envelope_split _ _ (by decide) (by decide)]

/-- C9: for a non-empty `data` whose last byte `n` is at most its length,
`pkcs7Unpad` returns the first `len(data) - n` bytes, for every block size
and whatever the bytes it removes are; for `n = 0` it returns `data`. -/
theorem C9_pkcs7Unpad_truncates (d : Bytes) (blockSize : Int) (hne : d ≠ [])
    (hn : (d.getLast hne).val ≤ d.length) :
    pkcs7Unpad d blockSize = .ret (d.take (d.length - (d.getLast hne).val)) ∧
    ((d.getLast hne).val = 0 → pkcs7Unpad d blockSize = .ret d) := by
  have h : pkcs7Unpad d blockSize = .ret (d.take (d.length - (d.getLast hne).val)) := by
    unfold pkcs7Unpad
    rw [List.getLast?_eq_getLast d hne]
    have h1 : ¬ ((d.length : Int) - (((d.getLast hne).val : Nat) : Int) < 0) := by omega
    have h2 : ((d.length : Int) - (((d.getLast hne).val : Nat) : Int)).toNat =
        d.length - (d.getLast hne).val := by omega
    simp only [h1, if_false, h2]
  refine ⟨h, ?_⟩
  intro h0
  rw [h, h0, Nat.sub_zero, List.take_length]

/-- An instance of C9 in which the removed bytes are not a valid padding. -/
theorem C9_pkcs7Unpad_truncates_witness :
    pkcs7Unpad [1, 2, 3, 4, 5, 2] 16 = .ret ([1, 2, 3, 4, 5, 2].take
      (([1, 2, 3, 4, 5, 2] : Bytes).length -
        (([1, 2, 3, 4, 5, 2] : Bytes).getLast (by decide)).val)) ∧
    ((([1, 2, 3, 4, 5, 2] : Bytes).getLast (by decide)).val = 0 →
      pkcs7Unpad [1, 2, 3, 4, 5, 2] 16 = .ret [1, 2, 3, 4, 5, 2]) :=
  C9_pkcs7Unpad_truncates [1, 2, 3, 4, 5, 2] 16 (by decide) (by decide)

/-- C10 fails on the code: for an envelope whose ciphertext part is one whole
block and whose passphrase part is `a`, the last deciphered byte is 60, more
than the 16 bytes of the buffer, and the slice expression of `pkcs7Unpad`
panics; `decryptAES`, `decryptText` and `decryptEncodedJson` panic with it. -/
theorem C10_unpad_fault :
    base64DecodeString (ascii "qb/ItbJgpIk88xrKTjGpKQ==") =
      ([169, 191, 200, 181, 178, 96, 164, 137, 60, 243, 26, 202, 78, 49, 169, 41], none) ∧
    cryptBlocks
      { block := expandKey [97, 121, 182, 57, 114, 18, 200, 196, 20, 142, 27, 161, 137, 57, 79, 22]
        iv := [242, 125, 92, 153, 39, 114, 107, 206, 254, 117, 16, 177, 189, 211, 209, 55] }
      [169, 191, 200, 181, 178, 96, 164, 137, 60, 243, 26, 202, 78, 49, 169, 41] =
      .ret [177, 225, 66, 9, 141, 87, 160, 153, 48, 252, 190, 144, 181, 212, 205, 60] ∧
    pkcs7Unpad [177, 225, 66, 9, 141, 87, 160, 153, 48, 252, 190, 144, 181, 212, 205, 60] 16 =
      .panic .sliceBounds ∧
    decryptText (ascii "qb/ItbJgpIk88xrKTjGpKQ==") (ascii "a") = .panic .sliceBounds ∧
    decryptEncodedJson (ascii "qb/ItbJgpIk88xrKTjGpKQ==G2b1UFYMYjNViPZY6bSpvHnNYxHa") =
      .panic .sliceBounds := by
  have hsplit : ascii "qb/ItbJgpIk88xrKTjGpKQ==G2b1UFYMYjNViPZY6bSpvHnNYxHa" =
      ascii "qb/ItbJgpIk88xrKTjGpKQ==" ++ markerStr ++ ascii "a" := by decide
  refine ⟨by decide, by decide!, by decide, decryptText_fault, ?_⟩
  rw [hsplit, envelope_split _ _ (by decide) (by decide), decryptText_fault]
  rfl

/-- C11 fails on the code: three kinds of envelope make `decryptEncodedJson`
panic instead of returning an error.  With an empty ciphertext part the
index expression `data[length-1]` of `pkcs7Unpad` is out of range; with a
ciphertext that is not whole blocks `CryptBlocks` panics; with a last
deciphered byte larger than the buffer the slice expression of `pkcs7Unpad`
is out of range. -/
theorem C11_decode_faults :
    decryptEncodedJson (ascii "G2b1UFYMYjNViPZY6bSpvHnNYxHa") = .panic .indexOutOfRange ∧
    decryptEncodedJson (ascii "qb/IG2b1UFYMYjNViPZY6bSpvHnNYxHa") = .panic .cbcNotFullBlocks ∧
    decryptEncodedJson (ascii "qb/ItbJgpIk88xrKTjGpKQ==G2b1UFYMYjNViPZY6bSpvHnNYxHa") =
      .panic .sliceBounds := by
  have h1 : ascii "G2b1UFYMYjNViPZY6bSpvHnNYxHa" = [] ++ markerStr ++ ascii "a" := by decide
  have h2 : ascii "qb/IG2b1UFYMYjNViPZY6bSpvHnNYxHa" =
      ascii "qb/I" ++ markerStr ++ ascii "a" := by decide
  have h3 : ascii "qb/ItbJgpIk88xrKTjGpKQ==G2b1UFYMYjNViPZY6bSpvHnNYxHa" =
      ascii "qb/ItbJgpIk88xrKTjGpKQ==" ++ markerStr ++ ascii "a" := by decide
  refine ⟨?_, ?_, ?_⟩
  · rw [h1, envelope_split _ _ (by decide) (by decide), decryptText_empty_ciphertext]
    rfl
  · rw [h2, envelope_split _ _ (by decide) (by decide),
      decryptText_not_full_blocks (ascii "qb/I") (ascii "a") [169, 191, 200] (by decide)
        (by decide)]
    rfl
  · rw [h3, envelope_split _ _ (by decide) (by decide), decryptText_fault]
    rfl

/-- C12 fails on the code: a ciphertext part that is valid base64 for 17
bytes makes `CryptBlocks` panic ("input not full blocks"), so `decryptAES`,
`decryptText` and `decryptEncodedJson` panic and return no error value. -/
theorem C12_not_full_blocks_fault :
    base64DecodeString (ascii "qb/ItbJgpIk88xrKTjGpKQA=") =
      ([169, 191, 200, 181, 178, 96, 164, 137, 60, 243, 26, 202, 78, 49, 169, 41, 0], none) ∧
    decryptText (ascii "qb/ItbJgpIk88xrKTjGpKQA=") (ascii "a") = .panic .cbcNotFullBlocks ∧
    decryptEncodedJson (ascii "qb/ItbJgpIk88xrKTjGpKQA=G2b1UFYMYjNViPZY6bSpvHnNYxHa") =
      .panic .cbcNotFullBlocks := by
  have hb : base64DecodeString (ascii "qb/ItbJgpIk88xrKTjGpKQA=") =
      ([169, 191, 200, 181, 178, 96, 164, 137, 60, 243, 26, 202, 78, 49, 169, 41, 0], none) := by
    decide
  have hd := decryptText_not_full_blocks (ascii "qb/ItbJgpIk88xrKTjGpKQA=") (ascii "a") _ hb
    (by decide)
  have hs : ascii "qb/ItbJgpIk88xrKTjGpKQA=G2b1UFYMYjNViPZY6bSpvHnNYxHa" =
      ascii "qb/ItbJgpIk88xrKTjGpKQA=" ++ markerStr ++ ascii "a" := by decide
  refine ⟨hb, hd, ?_⟩
  rw [hs, envelope_split _ _ (by decide) (by decide), hd]
  rfl

/-- C13, as stated, fails: a ciphertext part with a line feed in it is not
well-formed standard base64, yet `base64.StdEncoding` skips the line feed and
`decryptEncodedJson` returns the plaintext `{}` with a nil error. -/
theorem C13_line_break_is_accepted :
    wellFormedBase64 (ascii "qb/ItbJgpIk\n88xrKTjGpKQ==") = false ∧
    decryptEncodedJson (ascii
      "qb/ItbJgpIk\n88xrKTjGpKQ==G2b1UFYMYjNViPZY6bSpvHnNYxHHjVSaWQaJcBxegnjiODm3vs2a") =
      .ret (ascii "{}", none) := by
  have hs : ascii
      "qb/ItbJgpIk\n88xrKTjGpKQ==G2b1UFYMYjNViPZY6bSpvHnNYxHHjVSaWQaJcBxegnjiODm3vs2a" =
      ascii "qb/ItbJgpIk\n88xrKTjGpKQ==" ++ markerStr ++ ascii "HjVSaWQaJcBxegnjiODm3vs2a" := by
    decide
  refine ⟨by decide, ?_⟩
  rw [hs, envelope_split _ _ (by decide) (by decide), decryptText_line_break]
  rfl

/-- C13 amended: when the marker is found, the passphrase part is not empty
and the ciphertext part, its line feeds and carriage returns left out, is not
well-formed standard base64, then `base64.StdEncoding.DecodeString` returns a
`CorruptInputError`, `decryptText` returns it with the empty string before any
cipher is set up, and `decryptEncodedJson` returns it with the empty string. -/
theorem C13_bad_base64_is_error (s : Bytes) (i : Nat)
    (hi : stringsLastIndex s markerStr = (i : Int))
    (hpass : s.drop (i + markerStr.length) ≠ [])
    (hbad : wellFormedBase64 (stripNewlines (s.take i)) = false) :
    ∃ n, (base64DecodeString (s.take i)).2 = some (.base64Corrupt n) ∧
      decryptText (s.take i) (s.drop (i + markerStr.length)) =
        .ret ([], some (.base64Corrupt n)) ∧
      decryptEncodedJson s = .ret ([], some (.base64Corrupt n)) := by
  have hlen : i + markerStr.length ≤ s.length := by
    by_contra hcon
    exact hpass (List.drop_eq_nil_of_le (by omega))
  obtain ⟨n, hn⟩ := base64_rejects (s.take i) hbad
  have hd := decryptText_bad_base64 (s.take i) (s.drop (i + markerStr.length)) _ hn
  refine ⟨n, hn, hd, ?_⟩
  rw [decryptEncodedJson_at s i hi hlen, if_pos hpass, hd]
  rfl

/-- A witness of the amended C13: a ciphertext part with a character outside
the alphabet. -/
theorem C13_bad_base64_is_error_witness :
    ∃ n, (base64DecodeString
        ((ascii "qb/I*G2b1UFYMYjNViPZY6bSpvHnNYxHa").take 5)).2 = some (.base64Corrupt n) ∧
      decryptText ((ascii "qb/I*G2b1UFYMYjNViPZY6bSpvHnNYxHa").take 5)
        ((ascii "qb/I*G2b1UFYMYjNViPZY6bSpvHnNYxHa").drop (5 + markerStr.length)) =
        .ret ([], some (.base64Corrupt n)) ∧
      decryptEncodedJson (ascii "qb/I*G2b1UFYMYjNViPZY6bSpvHnNYxHa") =
        .ret ([], some (.base64Corrupt n)) :=
  C13_bad_base64_is_error (ascii "qb/I*G2b1UFYMYjNViPZY6bSpvHnNYxHa") 5 (by decide) (by decide)
    (by decide)

/-- C14: `decryptEncodedJson` returns the empty string with a nil error exactly
when the envelope has no marker token or ends with its last marker token; once
`decryptText` has been called the result is never that pair. -/
theorem C14_empty_without_error_iff (s : Bytes) :
    (decryptEncodedJson s = .ret ([], none) ↔ (¬ markerStr <:+: s ∨ markerStr <:+ s)) ∧
    ∀ c p : Bytes, afterDecrypt (decryptText c p) ≠ .ret ([], none) := by
  refine ⟨⟨?_, ?_⟩, fun c p => afterDecrypt_ne_empty _⟩
  · intro h
    by_cases hm : markerStr <:+: s
    · right
      obtain ⟨i, _, _, hs, _, hd⟩ := decode_with_marker s hm
      rw [hd] at h
      by_cases hp : s.drop (i + markerStr.length) = []
      · rw [hp, List.append_nil] at hs
        exact ⟨s.take i, hs⟩
      · rw [if_pos hp] at h
        exact absurd h (afterDecrypt_ne_empty _)
    · exact Or.inl hm
  · rintro (hm | ⟨c, hc⟩)
    · exact decode_no_marker s hm
    · subst hc
      have hi : stringsLastIndex (c ++ markerStr) markerStr = (c.length : Int) := by
        have := marker_lastIndex c [] (by rw [markerStr_eq]; decide)
        simpa using this
      rw [decryptEncodedJson_at _ c.length hi (by simp)]
      have hdrop : (c ++ markerStr).drop (c.length + markerStr.length) = [] := by
        rw [← List.length_append, List.drop_length]
      simp [hdrop]

/-- C15: the salt and IV constants are valid hexadecimal, of 32 and 16 bytes;
`generateKey` returns no error for any passphrase, and `decryptEncodedJson`
never returns an error of `hex.DecodeString`. -/
theorem C15_constants_decode :
    hexDecodeString salt =
      ([63, 242, 236, 1, 156, 98, 123, 148, 82, 37, 222, 186, 215, 26, 1, 182, 152, 95, 232, 76,
        149, 167, 14, 177, 50, 136, 47, 136, 192, 165, 154, 85], none) ∧
    (hexDecodeString salt).1.length = 32 ∧
    hexDecodeString iv =
      ([242, 125, 92, 153, 39, 114, 107, 206, 254, 117, 16, 177, 189, 211, 209, 55], none) ∧
    (hexDecodeString iv).1.length = 16 ∧
    (∀ passphrase : Bytes,
      ∃ key, generateKey salt passphrase keySize iterCount = .ret (key, none)) ∧
    ∀ (s t : Bytes) (b : Byte), decryptEncodedJson s ≠ .ret (t, some .hexLength) ∧
      decryptEncodedJson s ≠ .ret (t, some (.hexInvalidByte b)) := by
  refine ⟨by decide, by decide, iv_decode, by decide, ?_, ?_⟩
  · intro passphrase
    obtain ⟨key, hk, _⟩ := generateKey_ok passphrase
    exact ⟨key, hk⟩
  · intro s t b
    constructor
    · intro h
      rcases (decode_error s t _ h).2 with h1 | ⟨n, h1⟩ <;> cases h1
    · intro h
      rcases (decode_error s t _ h).2 with h1 | ⟨n, h1⟩ <;> cases h1

/-- C16: the marker literal is well-formed standard base64 and decodes, with
no error, to the 27-byte ASCII token `G2b1UFYMYjNViPZY6bSpvHnNYxH`. -/
theorem C16_marker_literal :
    wellFormedBase64 markerB64 = true ∧
    base64DecodeString markerB64 = (ascii "G2b1UFYMYjNViPZY6bSpvHnNYxH", none) ∧
    markerStr = ascii "G2b1UFYMYjNViPZY6bSpvHnNYxH" ∧
    markerStr.length = 27 ∧
    markerStr.all (fun b => decide (b.val < 128)) = true := by
  refine ⟨by decide, by decide, by decide, by decide, by decide⟩

/-- C17: for every passphrase the key that `decryptText` derives, PBKDF2 with
the fixed salt, 10 iterations and length 16, has exactly 16 bytes, `aes.NewCipher`
accepts it, and `decryptEncodedJson` never returns a `KeySizeError`. -/
theorem C17_key_is_sixteen_bytes (passphrase : Bytes) :
    ∃ key, pbkdf2Key passphrase (hexDecodeString salt).1 10 16 = .ret key ∧
      generateKey salt passphrase keySize iterCount = .ret (key, none) ∧
      key.length = 16 ∧
      aesNewCipher key = .ok (expandKey key) ∧
      ∀ (s t : Bytes) (n : Nat), decryptEncodedJson s ≠ .ret (t, some (.aesKeySize n)) := by
  obtain ⟨key, hk, hlen⟩ := pbkdf2Key_sixteen passphrase (hexDecodeString salt).1 10
  refine ⟨key, hk, ?_, hlen, aesNewCipher_sixteen key hlen, ?_⟩
  · have hs : hexDecodeString salt = ((hexDecodeString salt).1, none) :=
      Prod.ext rfl salt_decode
    unfold generateKey
    rw [hs]
    simp only [keySize, iterCount, hk]
  · intro s t n h
    rcases (decode_error s t _ h).2 with h1 | ⟨m, h1⟩ <;> cases h1

/-- C18: whenever `decryptEncodedJson` returns a non-nil error, the string it
returns with it is empty. -/
theorem C18_error_has_empty_string (s t : Bytes) (e : GoError)
    (h : decryptEncodedJson s = .ret (t, some e)) : t = [] :=
  (decode_error s t e h).1

/-- A witness of C18: the envelope of the empty plaintext, which
`decryptEncodedJson` answers with an error. -/
theorem C18_error_has_empty_string_witness :
    decryptEncodedJson (ascii "1s9ZisRffR6yGXm8fX0vyw==G2b1UFYMYjNViPZY6bSpvHnNYxHa") =
      .ret ([], some .emptyDecrypt) ∧ ([] : Bytes) = [] :=
  have h : decryptEncodedJson (ascii "1s9ZisRffR6yGXm8fX0vyw==G2b1UFYMYjNViPZY6bSpvHnNYxHa") =
      .ret ([], some .emptyDecrypt) := by
    rw [show ascii "1s9ZisRffR6yGXm8fX0vyw==G2b1UFYMYjNViPZY6bSpvHnNYxHa" =
        ascii "1s9ZisRffR6yGXm8fX0vyw==" ++ markerStr ++ ascii "a" from by decide,
      envelope_split _ _ (by decide) (by decide), decryptText_of_empty]
    rfl
  ⟨h, C18_error_has_empty_string _ _ _ h⟩

/-- C19: when the marker token occurs in the envelope, the two parts that
`decryptEncodedJson` cuts, with the marker token between them, are the
envelope, and the passphrase part contains no marker token; these are the
parts that `decryptEncodedJson` works on: with the passphrase part not empty
it is what follows the call of `decryptText` on them, otherwise it returns the
empty string with a nil error. -/
theorem C19_parts_rebuild_envelope (s : Bytes) (h : markerStr <:+: s) :
    ∃ (i : Nat) (c p : Bytes), stringsLastIndex s markerStr = (i : Int) ∧
      sliceTo s (stringsLastIndex s markerStr) = .ret c ∧
      sliceFrom s (stringsLastIndex s markerStr + (markerStr.length : Int)) = .ret p ∧
      c ++ markerStr ++ p = s ∧ ¬ markerStr <:+: p ∧
      decryptEncodedJson s =
        if p ≠ [] then afterDecrypt (decryptText c p) else .ret ([], none) := by
  obtain ⟨i, hi, hlen, hs, hno, hd⟩ := decode_with_marker s h
  refine ⟨i, s.take i, s.drop (i + markerStr.length), hi, ?_, ?_, hs, hno, hd⟩
  · rw [hi]; exact (slices_at s i hlen).1
  · rw [hi]; exact (slices_at s i hlen).2

/-- A witness of C19: the input of `TestDescriptografar`. -/
theorem C19_parts_rebuild_envelope_witness :
    ∃ (i : Nat) (c p : Bytes), stringsLastIndex knownVector markerStr = (i : Int) ∧
      sliceTo knownVector (stringsLastIndex knownVector markerStr) = .ret c ∧
      sliceFrom knownVector (stringsLastIndex knownVector markerStr + (markerStr.length : Int)) =
        .ret p ∧
      c ++ markerStr ++ p = knownVector ∧ ¬ markerStr <:+: p ∧
      decryptEncodedJson knownVector =
        if p ≠ [] then afterDecrypt (decryptText c p) else .ret ([], none) :=
  C19_parts_rebuild_envelope knownVector (by decide)

/-- C20: for a campus string that is not one of the five keys of `Campi`, the
lookup fails and both functions return a nil result with the error "campus
inválido", whatever the network and the JSON decoder would do; for each of the
five keys the lookup gives the entry of the map. -/
theorem C20_invalid_campus {Cardapio Resp : Type} (w : World Cardapio Resp) (campus : Bytes)
    (h : campus ∉ [ascii "sm", ascii "um", ascii "gl", ascii "po", ascii "mc"]) :
    campiLookup campus = none ∧
    ObterCardapioPorCampus w campus = .ret (none, some .campusInvalido) ∧
    ObterCardapiosFuturosPorCampus w campus = .ret (none, some .campusInvalido) ∧
    Campi.map Prod.fst = [ascii "sm", ascii "um", ascii "gl", ascii "po", ascii "mc"] ∧
    (campiLookup (ascii "sm")).map Campus.ID = some 277 ∧
    (campiLookup (ascii "um")).map Campus.ID = some 279 ∧
    (campiLookup (ascii "gl")).map Campus.ID = some 1747 ∧
    (campiLookup (ascii "po")).map Campus.ID = some 278 ∧
    (campiLookup (ascii "mc")).map Campus.ID = some 6097 := by
  have hl := campiLookup_none campus h
  refine ⟨hl, ?_, ?_, by decide, by decide, by decide, by decide, by decide, by decide⟩
  · simp only [ObterCardapioPorCampus, hl]
  · simp only [ObterCardapiosFuturosPorCampus, hl]

/-- A witness of C20: the campus string `xx`, in a world where every request
fails. -/
theorem C20_invalid_campus_witness :
    campiLookup (ascii "xx") = none ∧
    ObterCardapioPorCampus
      ({ requisicaoGenerica := fun _ _ => .error (.external [])
         readAll := fun _ => ([], none)
         unmarshalCardapio := fun _ => ((), none)
         unmarshalCardapios := fun _ => (none, none) } : World Unit Unit) (ascii "xx") =
      .ret (none, some .campusInvalido) ∧
    ObterCardapiosFuturosPorCampus
      ({ requisicaoGenerica := fun _ _ => .error (.external [])
         readAll := fun _ => ([], none)
         unmarshalCardapio := fun _ => ((), none)
         unmarshalCardapios := fun _ => (none, none) } : World Unit Unit) (ascii "xx") =
      .ret (none, some .campusInvalido) ∧
    Campi.map Prod.fst = [ascii "sm", ascii "um", ascii "gl", ascii "po", ascii "mc"] ∧
    (campiLookup (ascii "sm")).map Campus.ID = some 277 ∧
    (campiLookup (ascii "um")).map Campus.ID = some 279 ∧
    (campiLookup (ascii "gl")).map Campus.ID = some 1747 ∧
    (campiLookup (ascii "po")).map Campus.ID = some 278 ∧
    (campiLookup (ascii "mc")).map Campus.ID = some 6097 :=
  C20_invalid_campus _ (ascii "xx") (by decide)

end Gufu
